import Mathlib

/-!
Verification of `pymonga/_pymongo/son.py`: the `SON` insertion-ordered
document type (the spec's OrderedDocument) and its XML decoder
(`SON.from_xml`), shallowly embedded in Lean.

Modelling conventions:
* Python exceptions become the `PyErr` inductive; fallible operations
  return `Except PyErr _`.
* The underlying `dict` that `SON` subclasses is modelled as an
  association list `List (String × V)` with unique keys maintained by
  the dict operations; Python's dict iteration order is unspecified, so
  every theorem that would depend on it is phrased through `dget?`
  lookups or map-equivalence instead of through the list order.
* The hidden `SON.__keys` list is the `son_keys` field.
* Python `float(text)` and timestamp arithmetic (IEEE semantics) are out
  of scope: `number`/`date` values carry their validated literal text.
-/

set_option autoImplicit false

namespace Pymongo

/-- Python exceptions raised by the code under verification.
`unsupportedTag` is the `UnsupportedTag` class imported from
`pymonga/_pymongo/errors.py` (not part of the source tree); per the spec's
§7 error kinds it is its own error kind, distinct from `KeyError`
(`keyError` here), so the `except KeyError` in `make_elem` does not
re-wrap it. `keyError "container is empty"` is `KeyError('container is
empty')` raised by `popitem`. -/
inductive PyErr where
  | keyError (key : String)
  | valueError
  | typeError
  | indexError
  | unsupportedTag (msg : String)
  deriving DecidableEq, Repr

/-- Decidable equality of `Except` results, for evaluating operations on
concrete inputs. -/
instance {α β : Type} [DecidableEq α] [DecidableEq β] :
    DecidableEq (Except α β) := fun x y =>
  match x, y with
  | .ok a, .ok b =>
      if h : a = b then .isTrue (by rw [h]) else .isFalse (by simp [h])
  | .error a, .error b =>
      if h : a = b then .isTrue (by rw [h]) else .isFalse (by simp [h])
  | .ok _, .error _ => .isFalse (by simp)
  | .error _, .ok _ => .isFalse (by simp)

/-! ### Python `dict` primitives (association list with unique keys) -/

/-- `d[k]` lookup in a plain Python dict. -/
def dget? {V : Type} (d : List (String × V)) (k : String) : Option V :=
  match d with
  | [] => none
  | (k', v) :: rest => if k' = k then some v else dget? rest k

/-- `d[k] = v` on a plain Python dict: overwrite in place if the key is
present, else append a fresh entry. -/
def dset {V : Type} (d : List (String × V)) (k : String) (v : V) :
    List (String × V) :=
  match d with
  | [] => [(k, v)]
  | (k', v') :: rest =>
      if k' = k then (k', v) :: rest else (k', v') :: dset rest k v

/-- `del d[k]` on a plain Python dict (the key is assumed present;
callers check first). -/
def ddel {V : Type} (d : List (String × V)) (k : String) :
    List (String × V) :=
  match d with
  | [] => []
  | (k', v') :: rest => if k' = k then rest else (k', v') :: ddel rest k

/-- Python `dict.__eq__` between two plain dicts: equal as finite maps
(same key/value pairs, order irrelevant). -/
def pyDictEq {V : Type} [DecidableEq V] (d1 d2 : List (String × V)) : Bool :=
  d1.all (fun p => dget? d2 p.1 = some p.2) &&
    d2.all (fun p => dget? d1 p.1 = some p.2)

/-! ### The `SON` class -/

/-- The state of a `SON` instance: the hidden orderd key list
`self.__keys` and the contents of the underlying `dict`. -/
structure SON (V : Type) where
  son_keys : List String
  data : List (String × V)
  deriving DecidableEq, Repr

namespace SON

variable {V : Type}

/-- A fresh `SON` before any update: `self.__keys = []`,
`dict.__init__(self)`. -/
def empty : SON V := ⟨[], []⟩

/-- `SON.keys`: `return list(self.__keys)`. -/
def keys (s : SON V) : List String := s.son_keys

/-- `SON.__contains__` (also `has_key`): `key in self.keys()` — note the
membership test is against the order list, not the underlying dict. -/
def containsKey (s : SON V) (k : String) : Bool := s.son_keys.contains k

/-- `SON.__setitem__`: append to `self.__keys` when `key not in self`
(which tests `self.keys()`), then `dict.__setitem__`. -/
def setitem (s : SON V) (k : String) (v : V) : SON V :=
  { son_keys := if s.containsKey k then s.son_keys else s.son_keys ++ [k]
    data := dset s.data k v }

/-- `SON.__delitem__`: `self.__keys.remove(key)` — `list.remove` raises
`ValueError` when the key is absent from the order list, before any
mutation — then `dict.__delitem__(self, key)`, which raises `KeyError`
if the key is missing from the dict (unreachable when the instance is
well-formed). -/
def delitem (s : SON V) (k : String) : Except PyErr (SON V) :=
  if s.son_keys.contains k then
    if (dget? s.data k).isSome then
      .ok ⟨s.son_keys.erase k, ddel s.data k⟩
    else .error (.keyError k)
  else .error .valueError

/-- `dict.__getitem__` as inherited by `SON` (`self[key]`): `SON` does
not override item access, so it reads the underlying dict. -/
def getitem (s : SON V) (k : String) : Except PyErr V :=
  match dget? s.data k with
  | some v => .ok v
  | none => .error (.keyError k)

/-- `SON.get`: `self[key]` with a default on `KeyError`. -/
def get (s : SON V) (k : String) (default : V) : V :=
  (dget? s.data k).getD default

/-- `SON.items` (= `list(self.iteritems())`): walk `self.__keys` and pair
each key with `self[k]`. A key in the order list but missing from the
dict would raise `KeyError` mid-iteration in Python; that situation is
unreachable for well-formed instances (theorem `son_wf_invariant`), and
`filterMap` skips it here. -/
def items (s : SON V) : List (String × V) :=
  s.son_keys.filterMap (fun k => (dget? s.data k).map (fun v => (k, v)))

/-- `SON.values`: `[v for _, v in self.iteritems()]`. -/
def values (s : SON V) : List V := (s.items).map Prod.snd

/-- `SON.__len__`: `len(self.keys())`. -/
def length (s : SON V) : Nat := s.keys.length

/-- The argument of `SON.update` / `SON.__init__`. Python discriminates
by duck typing: `None` first, then `hasattr(other, 'iteritems')` (another
`SON`, or any mapping exposing `iteritems`), then `hasattr(other, 'keys')`
(a generic mapping with keyed lookup), then iteration as a sequence of
pairs. `unsupported` stands for a source of none of these shapes and not
otherwise iterable (e.g. an integer), which `for k, v in other` rejects
with `TypeError`. -/
inductive UpdateSource (V : Type) where
  | noSource
  | son (other : SON V)
  | mapping (m : List (String × V))
  | pairs (l : List (String × V))
  | unsupported

/-- The keys() sequence of a generic mapping modelled as an association
list. -/
def mappingKeys {W : Type} (m : List (String × W)) : List String :=
  m.map Prod.fst

/-- `SON.update`: per-case iteration applying `self[k] = v` per pair in
source order; trailing `if kwargs: self.update(kwargs)` applies the
keyword overrides afterwards (kwargs is a plain dict — its iteration
order is arbitrary; it is passed here as a list). -/
def update (s : SON V) (other : UpdateSource V) (kwargs : List (String × V)) :
    Except PyErr (SON V) := do
  let s1 ← match other with
    | .noSource => pure s
    | .son o => pure (o.items.foldl (fun t p => t.setitem p.1 p.2) s)
    | .mapping m =>
        (mappingKeys m).foldlM (fun t k =>
          match dget? m k with
          | some v => pure (t.setitem k v)
          | none => .error (.keyError k)) s
    | .pairs l => pure (l.foldl (fun t p => t.setitem p.1 p.2) s)
    | .unsupported => .error .typeError
  pure (kwargs.foldl (fun t p => t.setitem p.1 p.2) s1)

/-- `SON.__init__(data=None, **kwargs)`: start empty, `update(data)`,
then `update(kwargs)`. -/
def init (data : UpdateSource V) (kwargs : List (String × V)) :
    Except PyErr (SON V) := do
  let s ← update empty data []
  update s (.pairs kwargs) []

/-- `SON.copy`: fresh `SON()` then `other.update(self)`. -/
def copy (s : SON V) : Except PyErr (SON V) :=
  update empty (.son s) []

/-- `SON.clear`: `for key in self.keys(): del self[key]` — iterates a
snapshot of the order list, deleting each key. -/
def clear (s : SON V) : Except PyErr (SON V) :=
  s.son_keys.foldlM (fun t k => t.delitem k) s

/-- `SON.setdefault`: return `self[key]` if present; otherwise set the
default and return it. Returns the (possibly updated) state with the
returned value. -/
def setdefault (s : SON V) (k : String) (default : V) : SON V × V :=
  match dget? s.data k with
  | some v => (s, v)
  | none => (s.setitem k default, default)

/-- `SON.pop(key, *args)`: `TypeError` when more than one default is
supplied; on `KeyError` from `self[key]` return the default when
present, else re-raise; otherwise delete and return the value. -/
def pop (s : SON V) (k : String) (args : List V) :
    Except PyErr (SON V × V) :=
  if args.length > 1 then .error .typeError
  else
    match dget? s.data k with
    | none =>
        match args with
        | d :: _ => .ok (s, d)
        | [] => .error (.keyError k)
    | some v => do
        let s' ← s.delitem k
        pure (s', v)

/-- `SON.popitem`: take the first pair of `iteritems()` (raising
`KeyError('container is empty')` on `StopIteration`), delete its key,
return the pair. The first step reads `self[k]` for the first ordered
key. -/
def popitem (s : SON V) : Except PyErr (SON V × (String × V)) :=
  match s.son_keys with
  | [] => .error (.keyError "container is empty")
  | k :: _ => do
      let v ← s.getitem k
      let s' ← s.delitem k
      pure (s', (k, v))

/-- `dict(self.iteritems())`: build a plain dict from the ordered items. -/
def dictOfItems (s : SON V) : List (String × V) :=
  s.items.foldl (fun d p => dset d p.1 p.2) []

/-- The other operand of `SON.__cmp__`: either another `SON` or a plain
mapping (any other value raises/compares unequal in Python 2; the claims
only concern these two). -/
inductive CmpOperand (V : Type) where
  | son (other : SON V)
  | pydict (d : List (String × V))

/-- The equality facet of `SON.__cmp__` (`__cmp__(self, other) == 0`):
against another `SON`, compare the tuple
`(dict(self.iteritems()), self.keys())` with the other's — zero iff the
dicts are equal as maps AND the key lists are equal as lists; against a
plain mapping, compare `dict(self.iteritems())` with it — zero iff equal
as maps. -/
def cmpEq [DecidableEq V] (s : SON V) (other : CmpOperand V) : Bool :=
  match other with
  | .son o =>
      pyDictEq (dictOfItems s) (dictOfItems o) && (s.keys = o.keys : Bool)
  | .pydict d => pyDictEq (dictOfItems s) d

/-- Well-formedness of a `SON` instance: the hidden order list has no
duplicates, the underlying dict's key set has no duplicates, and the two
hold exactly the same keys. Every instance reachable through the class's
operations satisfies it (theorem `son_wf_invariant`). -/
def WF (s : SON V) : Prop :=
  s.son_keys.Nodup ∧ (s.data.map Prod.fst).Nodup ∧
    (∀ k ∈ s.son_keys, k ∈ s.data.map Prod.fst) ∧
    (∀ k ∈ s.data.map Prod.fst, k ∈ s.son_keys)

instance (s : SON V) : Decidable s.WF := by
  unfold WF
  infer_instance

end SON

/-! ### The value model

Python values stored in documents. `vnumber`/`vdate` carry their
validated literal text (IEEE float and timestamp arithmetic are host
collaborators outside the shallow embedding); `vregex`/`vdbref` carry the
two decoded child values (the `re.compile` and `DBRef` constructors are
external to `son.py`). `vdict` is a plain Python `dict` (as produced by
`to_dict` or nested inside documents). -/

inductive Value where
  | vnull
  | vbool (b : Bool)
  | vint (n : Int)
  | vnumber (text : String)
  | vstr (s : String)
  | vcode (s : String)
  | vbinary (bytes : List Nat)
  | vdate (millisText : String)
  | vobjectid (bytes : List Nat)
  | vregex (pattern : Value) (options : Value)
  | vdbref (collection : Value) (id : Value)
  | varray (elems : List Value)
  | vdoc (d : SON Value)
  | vdict (d : List (String × Value))

/-! ### Scalar parsing helpers (Python builtins used by the decoder) -/

/-- Python's default string-strip whitespace characters. -/
def pyIsSpace (c : Char) : Bool :=
  c = ' ' || c = '\t' || c = '\n' || c = '\x0d' || c = '\x0b' || c = '\x0c'

/-- Python `s.strip()` on the characters of a string. -/
def pyStrip (s : String) : List Char :=
  ((s.toList.dropWhile pyIsSpace).reverse.dropWhile pyIsSpace).reverse

/-- The digits of a base-10 integer literal: nonempty, all decimal. -/
def decDigits? (cs : List Char) : Option Nat :=
  match cs with
  | [] => none
  | _ =>
    if cs.all Char.isDigit then
      some (cs.foldl (fun n c => n * 10 + (c.toNat - 48)) 0)
    else none

/-- Python `int(s)` on a string: strip whitespace, optional sign,
nonempty run of decimal digits; anything else raises `ValueError`. -/
def parseIntStr (s : String) : Except PyErr Int :=
  match pyStrip s with
  | '+' :: ds => match decDigits? ds with
      | some n => .ok (n : Int)
      | none => .error .valueError
  | '-' :: ds => match decDigits? ds with
      | some n => .ok (-(n : Int))
      | none => .error .valueError
  | ds => match decDigits? ds with
      | some n => .ok (n : Int)
      | none => .error .valueError

/-- Python `int(text)` on an element's text: `int(None)` raises
`TypeError`. -/
def parseIntText (text : Option String) : Except PyErr Int :=
  match text with
  | none => .error .typeError
  | some s => parseIntStr s

/-- Recognizer for the strings Python `float(s)` accepts: after
stripping whitespace and an optional sign, a decimal mantissa
(`digits[.digits]` or `.digits`) with optional exponent, or the special
words `inf`/`infinity`/`nan` (case-insensitive). -/
def isFloatBody (cs : List Char) : Bool :=
  let lower := cs.map Char.toLower
  if lower = "inf".toList || lower = "infinity".toList || lower = "nan".toList
  then true
  else
    let (mant, rest) :=
      match cs.span (fun c => c.isDigit || c = '.') with
      | (m, r) => (m, r)
    let intPart := mant.takeWhile Char.isDigit
    let afterInt := mant.drop intPart.length
    let mantOk :=
      match afterInt with
      | [] => intPart ≠ []
      | '.' :: frac => frac.all Char.isDigit && (intPart ≠ [] || frac ≠ [])
      | _ => false
    let expOk :=
      match rest with
      | [] => true
      | e :: sgn =>
        (e = 'e' || e = 'E') &&
          (match sgn with
           | '+' :: ds | '-' :: ds => decDigits? ds |>.isSome
           | ds => decDigits? ds |>.isSome)
    mantOk && expOk

/-- Python `float(s)` validity on a string. -/
def isFloatStr (s : String) : Bool :=
  match pyStrip s with
  | '+' :: cs => isFloatBody cs
  | '-' :: cs => isFloatBody cs
  | cs => isFloatBody cs

/-- Python `float(text)`: `TypeError` on `None`, `ValueError` on a
malformed literal; a valid literal is kept as its stripped text. -/
def parseFloatText (text : Option String) : Except PyErr String :=
  match text with
  | none => .error .typeError
  | some s =>
      if isFloatStr s then .ok (String.mk (pyStrip s)) else .error .valueError

/-- Value of a hex digit. -/
def hexVal? (c : Char) : Option Nat :=
  if c.isDigit then some (c.toNat - 48)
  else if 'a' ≤ c ∧ c ≤ 'f' then some (c.toNat - 87)
  else if 'A' ≤ c ∧ c ≤ 'F' then some (c.toNat - 55)
  else none

/-- `binascii.unhexlify`: pairs of hex digits to bytes; an odd-length or
non-hex string raises an error (modelled as `ValueError`). -/
def unhexlify (cs : List Char) : Except PyErr (List Nat) :=
  match cs with
  | [] => .ok []
  | [_] => .error .valueError
  | c1 :: c2 :: rest =>
    match hexVal? c1, hexVal? c2 with
    | some h, some l => do
        let tail ← unhexlify rest
        pure ((h * 16 + l) :: tail)
    | _, _ => .error .valueError

/-- A standard-alphabet base64 character's 6-bit value. -/
def b64Val? (c : Char) : Option Nat :=
  if 'A' ≤ c ∧ c ≤ 'Z' then some (c.toNat - 65)
  else if 'a' ≤ c ∧ c ≤ 'z' then some (c.toNat - 97 + 26)
  else if c.isDigit then some (c.toNat - 48 + 52)
  else if c = '+' then some 62
  else if c = '/' then some 63
  else none

/-- Pack a group of up to four 6-bit values into bytes. -/
def b64Group (g : List Nat) : List Nat :=
  match g with
  | [a, b, c, d] =>
      [a * 4 + b / 16, (b % 16) * 16 + c / 4, (c % 4) * 64 + d]
  | [a, b, c] => [a * 4 + b / 16, (b % 16) * 16 + c / 4]
  | [a, b] => [a * 4 + b / 16]
  | _ => []

/-- Decode a run of 6-bit values in groups of four. -/
def b64Groups (vals : List Nat) : List Nat :=
  match vals with
  | a :: b :: c :: d :: rest => b64Group [a, b, c, d] ++ b64Groups rest
  | g => b64Group g

/-- `base64.decodestring` (`binascii.a2b_base64`): characters outside the
base64 alphabet (padding included) are skipped; a trailing group of one
6-bit value is an incorrect-padding error (modelled as `ValueError`). -/
def b64decode (s : String) : Except PyErr (List Nat) :=
  let vals := s.toList.filterMap b64Val?
  if vals.length % 4 = 1 then .error .valueError else .ok (b64Groups vals)

/-- Python list indexing `l[i]` with a nonnegative index: `IndexError`
when out of range. -/
def pyIndex {A : Type} (l : List A) (i : Nat) : Except PyErr A :=
  match l.get? i with
  | some a => .ok a
  | none => .error .indexError

/-- Python list item assignment `l[index] = v`: a nonnegative index must
be below the length, a negative index counts from the end, anything else
raises `IndexError`. -/
def pyListSet {A : Type} (l : List A) (index : Int) (v : A) :
    Except PyErr (List A) :=
  if 0 ≤ index ∧ index < (l.length : Int) then
    .ok (l.set index.toNat v)
  else if -(l.length : Int) ≤ index ∧ index < 0 then
    .ok (l.set ((l.length : Int) + index).toNat v)
  else .error .indexError

/-! ### The XML element tree and the decoder (`SON.from_xml`)

The decoder receives an element tree already parsed by an external XML
parser (`xml.etree.ElementTree`); each element exposes a `tag`, an
`attrib` mapping, optional `text` and an ordered list of children. -/

/-- A parsed XML element. -/
inductive Elem where
  | mk (tag : String) (attrib : List (String × String))
      (text : Option String) (children : List Elem)

/-- `elem.tag`. -/
def Elem.tag : Elem → String
  | .mk t _ _ _ => t

/-- `elem.attrib`. -/
def Elem.attrib : Elem → List (String × String)
  | .mk _ a _ _ => a

/-- `elem.text`. -/
def Elem.text : Elem → Option String
  | .mk _ _ t _ => t

/-- The element's children (iteration and indexing target). -/
def Elem.children : Elem → List Elem
  | .mk _ _ _ c => c

/-- The decode rules of the dispatch table in `make_elem`; one
constructor per handler entry. -/
inductive Rule where
  | rarray | rdoc | rstring | rbinary | rboolean | rcode | rdate
  | rref | rns | roid | rint | rnull | rnumber | rregex
  | rpattern | roptions
  deriving DecidableEq, Repr

/-- The dispatch dict literal of `make_elem`, in source order: tag name
to handler. -/
def TypeDispatchTable : List (String × Rule) :=
  [("array", .rarray), ("doc", .rdoc), ("string", .rstring),
   ("binary", .rbinary), ("boolean", .rboolean), ("code", .rcode),
   ("date", .rdate), ("ref", .rref), ("ns", .rns), ("oid", .roid),
   ("int", .rint), ("null", .rnull), ("number", .rnumber),
   ("regex", .rregex), ("pattern", .rpattern), ("options", .roptions)]

/-- `{...}[elem.tag]`: look a tag up in the dispatch table (`None` where
Python raises `KeyError`, which `make_elem` catches). -/
def tableLookup (tag : String) : Option Rule :=
  dget? TypeDispatchTable tag

/-- `make_string` (also the `ns` and `pattern` handler):
`string.text is not None and unicode(string.text) or u""` — the text, or
the empty string when text is absent (an empty text is falsy and also
yields `u""`). -/
def make_string (e : Elem) : Value := .vstr (e.text.getD "")

/-- `make_code`: the text wrapped as `Code`, empty `Code` without text. -/
def make_code (e : Elem) : Value := .vcode (e.text.getD "")

/-- `make_binary`: base64-decode the text (`Binary("")` without text). -/
def make_binary (e : Elem) : Except PyErr Value :=
  match e.text with
  | some t => (b64decode t).map .vbinary
  | none => .ok (.vbinary [])

/-- `make_boolean`: `bool.text == "true"` — true only on that exact
text. -/
def make_boolean (e : Elem) : Value := .vbool (e.text = some "true")

/-- `make_date`: `float(date.text)` (divided by 1000 and converted to a
UTC datetime by host collaborators; the validated literal is kept). -/
def make_date (e : Elem) : Except PyErr Value :=
  (parseFloatText e.text).map .vdate

/-- `make_oid`: `ObjectId(binascii.unhexlify(oid.text))`.
`unhexlify(None)` raises `TypeError`. Modelled from the spec: the
`ObjectId` constructor (`objectid.py`, not part of the source tree)
requires exactly 12 raw bytes, per §3 "ObjectId(12 raw bytes)". -/
def make_oid (e : Elem) : Except PyErr Value :=
  match e.text with
  | none => .error .typeError
  | some t => do
      let bytes ← unhexlify t.toList
      if bytes.length = 12 then pure (.vobjectid bytes)
      else .error .valueError

/-- `make_int`: `int(data.text)`. -/
def make_int (e : Elem) : Except PyErr Value :=
  (parseIntText e.text).map .vint

/-- `make_null`: always `None`. -/
def make_null (_e : Elem) : Value := .vnull

/-- `make_number`: `float(number.text)`. -/
def make_number (e : Elem) : Except PyErr Value :=
  (parseFloatText e.text).map .vnumber

/-- `make_options`: `0` for absent or empty text; otherwise OR together
the `re` flag constants for each letter present in the text
(`IGNORECASE = 2`, `LOCALE = 4`, `MULTILINE = 8`, `DOTALL = 16`,
`UNICODE = 32`, `VERBOSE = 64`); other letters are ignored. -/
def make_options (e : Elem) : Value :=
  match e.text with
  | none => .vint 0
  | some t =>
    if t = "" then .vint 0
    else
      let add (acc : Int) (c : Char) (flag : Int) : Int :=
        if t.toList.contains c then acc + flag else acc
      .vint (add (add (add (add (add (add 0 'i' 2) 'l' 4) 'm' 8)
        's' 16) 'u' 32) 'x' 64)

/-- `pad`: `while index >= len(list): list.append(None)` — grow the
accumulated array with `Null` up to the index. -/
def pad (l : List Value) (index : Int) : List Value :=
  if (l.length : Int) ≤ index then pad (l ++ [.vnull]) index else l
termination_by (index + 1 - l.length).toNat
decreasing_by
  simp only [List.length_append, List.length_cons, List.length_nil]
  omega

mutual

/-- `make_elem`: look the element's tag up in the dispatch table and run
the handler; a `KeyError` — from the table lookup on an unknown tag, or
raised inside the handler — becomes
`UnsupportedTag("cannot parse tag: %s" % elem.tag)`. The per-tag handler
bodies are written inline here so the recursion is structural over the
element tree; `runRule` below packages the same dispatch as a standalone
function and `make_elem_runRule` proves the two agree. -/
def make_elem : Elem → Except PyErr Value
  | .mk tag attrib text children =>
    match tableLookup tag with
    | none => .error (.unsupportedTag ("cannot parse tag: " ++ tag))
    | some r =>
      let res : Except PyErr Value :=
        match r with
        | .rarray =>
            match make_doc_children children SON.empty with
            | .error err => .error err
            | .ok doc =>
                (doc.items.foldlM
                  (fun (arr : List Value) (p : String × Value) => do
                    let index ← parseIntStr p.1
                    pyListSet (pad arr index) index p.2) []).map Value.varray
        | .rdoc => (make_doc_children children SON.empty).map Value.vdoc
        | .rstring => .ok (make_string (.mk tag attrib text children))
        | .rbinary => make_binary (.mk tag attrib text children)
        | .rboolean => .ok (make_boolean (.mk tag attrib text children))
        | .rcode => .ok (make_code (.mk tag attrib text children))
        | .rdate => make_date (.mk tag attrib text children)
        | .rref =>
            match children with
            | [] => .error .indexError
            | [c0] => do
                let _ ← make_elem c0
                .error .indexError
            | c0 :: c1 :: _ => do
                let v0 ← make_elem c0
                let v1 ← make_elem c1
                pure (.vdbref v0 v1)
        | .rns => .ok (make_string (.mk tag attrib text children))
        | .roid => make_oid (.mk tag attrib text children)
        | .rint => make_int (.mk tag attrib text children)
        | .rnull => .ok (make_null (.mk tag attrib text children))
        | .rnumber => make_number (.mk tag attrib text children)
        | .rregex =>
            match children with
            | [] => .error .indexError
            | [c0] => do
                let _ ← make_elem c0
                .error .indexError
            | c0 :: c1 :: _ => do
                let v0 ← make_elem c0
                let v1 ← make_elem c1
                pure (.vregex v0 v1)
        | .rpattern => .ok (make_string (.mk tag attrib text children))
        | .roptions => .ok (make_options (.mk tag attrib text children))
      match res with
      | .error (.keyError _) =>
          .error (.unsupportedTag ("cannot parse tag: " ++ tag))
      | res => res

/-- The loop of `make_doc`: `son[elem.attrib["name"]] = make_elem(elem)`
per child — the right-hand side is evaluated before the `name`
attribute lookup, whose miss raises `KeyError("name")`. -/
def make_doc_children : List Elem → SON Value → Except PyErr (SON Value)
  | [], acc => .ok acc
  | c :: rest, acc => do
      let v ← make_elem c
      match dget? c.attrib "name" with
      | none => .error (.keyError "name")
      | some nm => make_doc_children rest (acc.setitem nm v)

end

/-- `make_doc`: decode each child into a fresh `SON`, keyed by the
child's `name` attribute. -/
def make_doc (e : Elem) : Except PyErr (SON Value) :=
  make_doc_children e.children SON.empty

/-- `make_array`: decode the element's children as a `doc`, then rebuild
a dense list: for each decoded `(key, value)` pair in document order,
`index = int(key)`, pad with `Null` up to the index, and assign
`array[index] = value`. -/
def make_array (e : Elem) : Except PyErr (List Value) := do
  let doc ← make_doc e
  doc.items.foldlM (fun arr p => do
    let index ← parseIntStr p.1
    pyListSet (pad arr index) index p.2) []

/-- Run one dispatch-table handler on an element. The `ref` and `regex`
handlers index the element's first two children (`dbref[0]`, `dbref[1]`;
Python raises `IndexError` when one is missing) and decode each with
`make_elem` in order. -/
def runRule (r : Rule) (e : Elem) : Except PyErr Value :=
  match r, e with
  | .rarray, e => (make_array e).map .varray
  | .rdoc, e => (make_doc e).map .vdoc
  | .rstring, e => .ok (make_string e)
  | .rbinary, e => make_binary e
  | .rboolean, e => .ok (make_boolean e)
  | .rcode, e => .ok (make_code e)
  | .rdate, e => make_date e
  | .rref, .mk _ _ _ [] => .error .indexError
  | .rref, .mk _ _ _ [c0] => do
      let _ ← make_elem c0
      .error .indexError
  | .rref, .mk _ _ _ (c0 :: c1 :: _) => do
      let v0 ← make_elem c0
      let v1 ← make_elem c1
      pure (.vdbref v0 v1)
  | .rns, e => .ok (make_string e)
  | .roid, e => make_oid e
  | .rint, e => make_int e
  | .rnull, e => .ok (make_null e)
  | .rnumber, e => make_number e
  | .rregex, .mk _ _ _ [] => .error .indexError
  | .rregex, .mk _ _ _ [c0] => do
      let _ ← make_elem c0
      .error .indexError
  | .rregex, .mk _ _ _ (c0 :: c1 :: _) => do
      let v0 ← make_elem c0
      let v1 ← make_elem c1
      pure (.vregex v0 v1)
  | .rpattern, e => .ok (make_string e)
  | .roptions, e => .ok (make_options e)

/-- The inlined handler bodies of `make_elem` agree with `runRule`:
`make_elem` is exactly the dispatch-table lookup, the handler run, and
the `KeyError`-to-`UnsupportedTag` conversion. -/
theorem make_elem_runRule (e : Elem) :
    make_elem e =
      match tableLookup e.tag with
      | none => .error (.unsupportedTag ("cannot parse tag: " ++ e.tag))
      | some r =>
        match runRule r e with
        | .error (.keyError _) =>
            .error (.unsupportedTag ("cannot parse tag: " ++ e.tag))
        | res => res := by
  obtain ⟨tag, attrib, text, children⟩ := e
  simp only [Elem.tag]
  cases children with
  | nil =>
      rw [make_elem.eq_1]
      cases tableLookup tag with
      | none => rfl
      | some r => cases r <;> rfl
  | cons c0 rest =>
      cases rest with
      | nil =>
          rw [make_elem.eq_2]
          cases tableLookup tag with
          | none => rfl
          | some r =>
              cases r <;>
                first
                | rfl
                | (simp only [runRule, make_array, make_doc, Elem.children,
                    bind, Except.bind]
                   cases make_doc_children [c0] SON.empty <;> rfl)
      | cons c1 rest2 =>
          rw [make_elem.eq_3]
          cases tableLookup tag with
          | none => rfl
          | some r =>
              cases r <;>
                first
                | rfl
                | (simp only [runRule, make_array, make_doc, Elem.children,
                    bind, Except.bind]
                   cases make_doc_children (c0 :: c1 :: rest2) SON.empty <;>
                     rfl)

/-- `SON.from_xml` after the external XML parse: take the second
top-level child of the tree's root (`doc = tree[1]`; the first child is
skipped as non-document metadata) and decode it with `make_doc`. -/
def from_xml_tree (tree : Elem) : Except PyErr (SON Value) := do
  let doc ← pyIndex tree.children 1
  make_doc doc

/-! ### `SON.to_dict` (the spec's CanonicalConverter) -/

mutual

/-- `transform_value` inside `SON.to_dict`: a Python list is rebuilt
element-wise; a `SON` is first replaced by `dict(value)` (its underlying
dict contents, order discarded); a plain dict then has every value
transformed in place; anything else passes through unchanged. -/
def transform_value (v : Value) : Value :=
  match v with
  | .varray l => .varray (transform_list l)
  | .vdoc ⟨_, data⟩ => .vdict (transform_assoc data)
  | .vdict d => .vdict (transform_assoc d)
  | v => v

/-- The list comprehension `[transform_value(v) for v in value]`. -/
def transform_list (l : List Value) : List Value :=
  match l with
  | [] => []
  | v :: rest => transform_value v :: transform_list rest

/-- The loop `for k, v in value.iteritems(): value[k] = transform_value(v)`
over a plain dict (replacing the value under each existing key). -/
def transform_assoc (d : List (String × Value)) : List (String × Value) :=
  match d with
  | [] => []
  | (k, v) :: rest => (k, transform_value v) :: transform_assoc rest

end

/-- `SON.to_dict`: `transform_value(dict(self))` — convert the document
to a plain dict (underlying dict contents) and transform recursively. -/
def SON.to_dict (s : SON Value) : Value :=
  transform_value (.vdict s.data)

/-! ### Specification-side descriptions

These definitions state, independently of the implementation, what the
spec's sentences describe; the claim theorems relate them to the code. -/

/-- The distinct elements of a list in order of first occurrence. -/
def firstDedup (l : List String) : List String :=
  l.foldl (fun acc k => if acc.contains k then acc else acc ++ [k]) []

/-- The value of the last pair of `ps` carrying key `k` (the result of
applying the writes of `ps` in order), if any. -/
def lastWrite? {K V : Type} [DecidableEq K] (ps : List (K × V)) (k : K) :
    Option V :=
  match ps with
  | [] => none
  | p :: rest =>
    match lastWrite? rest k with
    | some v => some v
    | none => if p.1 = k then some p.2 else none

/-- The length of the dense sequence the spec's array rule describes:
one more than the largest index written, `0` when nothing is written. -/
def denseLen {V : Type} (ps : List (Nat × V)) : Nat :=
  ps.foldl (fun m p => max m (p.1 + 1)) 0

mutual

/-- Whether an element tree contains an element with the given tag. -/
def elemHasTag (t : String) : Elem → Bool
  | .mk tag _ _ children => tag = t || elemsHaveTag t children

/-- Whether any element of a list of trees carries the given tag. -/
def elemsHaveTag (t : String) : List Elem → Bool
  | [] => false
  | e :: rest => elemHasTag t e || elemsHaveTag t rest

end

/-- A scalar value: anything `transform_value` neither rebuilds
element-wise nor converts to a plain dict. -/
def isScalar (v : Value) : Bool :=
  match v with
  | .varray _ | .vdoc _ | .vdict _ => false
  | _ => true

mutual

/-- `true` when a value tree contains no `SON` document at any depth. -/
def sonFree (v : Value) : Bool :=
  match v with
  | .varray l => sonFreeList l
  | .vdoc _ => false
  | .vdict d => sonFreeAssoc d
  | .vregex p o => sonFree p && sonFree o
  | .vdbref c i => sonFree c && sonFree i
  | _ => true

/-- `sonFree` over a list of values. -/
def sonFreeList (l : List Value) : Bool :=
  match l with
  | [] => true
  | v :: rest => sonFree v && sonFreeList rest

/-- `sonFree` over the values of an association list. -/
def sonFreeAssoc (d : List (String × Value)) : Bool :=
  match d with
  | [] => true
  | p :: rest => sonFree p.2 && sonFreeAssoc rest

end

mutual

/-- `true` when no `SON` document is reachable through the containers
the converter walks (arrays and plain dicts); `DBRef`/`Regex` wrappers
count as atoms, exactly as `transform_value` treats them. -/
def docFree (v : Value) : Bool :=
  match v with
  | .varray l => docFreeList l
  | .vdoc _ => false
  | .vdict d => docFreeAssoc d
  | _ => true

/-- `docFree` over a list of values. -/
def docFreeList (l : List Value) : Bool :=
  match l with
  | [] => true
  | v :: rest => docFree v && docFreeList rest

/-- `docFree` over the values of an association list. -/
def docFreeAssoc (d : List (String × Value)) : Bool :=
  match d with
  | [] => true
  | p :: rest => docFree p.2 && docFreeAssoc rest

end

/-! ### Lemmas: plain dict primitives -/

theorem dget?_dset_self {V : Type} (d : List (String × V)) (k : String)
    (v : V) : dget? (dset d k v) k = some v := by
  induction d with
  | nil => simp [dset, dget?]
  | cons p rest ih =>
    obtain ⟨k', v'⟩ := p
    by_cases h : k' = k
    · simp [dset, dget?, h]
    · simp [dset, dget?, h, ih]

theorem dget?_dset_ne {V : Type} (d : List (String × V)) (k k' : String)
    (v : V) (h : k' ≠ k) : dget? (dset d k v) k' = dget? d k' := by
  induction d with
  | nil => simp [dset, dget?, Ne.symm h]
  | cons p rest ih =>
    obtain ⟨k0, v0⟩ := p
    by_cases h0 : k0 = k
    · subst h0
      simp [dset, dget?, Ne.symm h]
    · simp only [dset, dget?, h0, if_false]
      by_cases h1 : k0 = k'
      · simp [dget?, h1]
      · simp [dget?, h1, ih]

theorem keys_dset {V : Type} (d : List (String × V)) (k : String) (v : V) :
    (dset d k v).map Prod.fst =
      if k ∈ d.map Prod.fst then d.map Prod.fst else d.map Prod.fst ++ [k] := by
  induction d with
  | nil => simp [dset]
  | cons p rest ih =>
    obtain ⟨k0, v0⟩ := p
    by_cases h0 : k0 = k
    · subst h0
      simp [dset]
    · simp only [dset, h0, if_false, List.map_cons]
      rw [ih]
      by_cases hmem : k ∈ rest.map Prod.fst
      · simp [hmem, Ne.symm h0]
      · simp [hmem, Ne.symm h0]

theorem nodup_keys_dset {V : Type} (d : List (String × V)) (k : String)
    (v : V) (h : (d.map Prod.fst).Nodup) : ((dset d k v).map Prod.fst).Nodup := by
  rw [keys_dset]
  by_cases hmem : k ∈ d.map Prod.fst
  · simpa [hmem]
  · simp only [hmem, if_false]
    apply List.Nodup.append h (List.nodup_singleton k)
    intro a ha hb
    simp only [List.mem_singleton] at hb
    subst hb
    exact hmem ha

theorem mem_keys_dget?_isSome {V : Type} (d : List (String × V)) (k : String) :
    k ∈ d.map Prod.fst ↔ (dget? d k).isSome := by
  induction d with
  | nil => simp [dget?]
  | cons p rest ih =>
    obtain ⟨k0, v0⟩ := p
    by_cases h0 : k0 = k
    · simp [dget?, h0]
    · simp [dget?, h0, ih, Ne.symm h0]

theorem dget?_ddel_self {V : Type} (d : List (String × V)) (k : String)
    (h : (d.map Prod.fst).Nodup) : dget? (ddel d k) k = none := by
  induction d with
  | nil => simp [ddel, dget?]
  | cons p rest ih =>
    obtain ⟨k0, v0⟩ := p
    simp only [List.map_cons, List.nodup_cons] at h
    by_cases h0 : k0 = k
    · subst h0
      simp only [ddel, if_pos rfl]
      have hns : ¬(dget? rest k0).isSome := by
        rw [← mem_keys_dget?_isSome]
        exact h.1
      exact Option.not_isSome_iff_eq_none.mp hns
    · simp [ddel, dget?, h0, ih h.2]

theorem dget?_ddel_ne {V : Type} (d : List (String × V)) (k k' : String)
    (h : k' ≠ k) : dget? (ddel d k) k' = dget? d k' := by
  induction d with
  | nil => simp [ddel]
  | cons p rest ih =>
    obtain ⟨k0, v0⟩ := p
    by_cases h0 : k0 = k
    · subst h0
      simp [ddel, dget?, Ne.symm h]
    · simp only [ddel, h0, if_false]
      by_cases h1 : k0 = k'
      · simp [dget?, h1]
      · simp [dget?, h1, ih]

theorem keys_ddel {V : Type} (d : List (String × V)) (k : String) :
    (ddel d k).map Prod.fst = (d.map Prod.fst).erase k := by
  induction d with
  | nil => simp [ddel]
  | cons p rest ih =>
    obtain ⟨k0, v0⟩ := p
    by_cases h0 : k0 = k
    · subst h0
      simp [ddel, List.erase_cons_head]
    · simp [ddel, h0, List.erase_cons, ih]

theorem dget?_append {V : Type} (d1 d2 : List (String × V)) (k : String) :
    dget? (d1 ++ d2) k =
      match dget? d1 k with
      | some v => some v
      | none => dget? d2 k := by
  induction d1 with
  | nil => simp [dget?]
  | cons p rest ih =>
    obtain ⟨k0, v0⟩ := p
    by_cases h0 : k0 = k
    · simp [dget?, h0]
    · simp [dget?, h0, ih]

/-- With unique keys, a dict lookup returns exactly the pairs stored. -/
theorem dget?_eq_some_iff_mem {V : Type} (d : List (String × V))
    (hd : (d.map Prod.fst).Nodup) (k : String) (v : V) :
    dget? d k = some v ↔ (k, v) ∈ d := by
  induction d with
  | nil => simp [dget?]
  | cons p rest ih =>
    obtain ⟨k0, v0⟩ := p
    simp only [List.map_cons, List.nodup_cons] at hd
    by_cases h0 : k0 = k
    · subst h0
      simp only [dget?, eq_self_iff_true, if_true, Option.some.injEq,
        List.mem_cons, Prod.mk.injEq, true_and]
      constructor
      · intro hh
        exact Or.inl hh.symm
      · rintro (hh | hh)
        · exact hh.symm
        · exact absurd (List.mem_map_of_mem Prod.fst hh) hd.1
    · simp only [dget?, h0, if_false, List.mem_cons, Prod.mk.injEq]
      rw [ih hd.2]
      constructor
      · exact Or.inr
      · rintro (⟨hk, _⟩ | hh)
        · exact absurd hk.symm h0
        · exact hh

/-- With unique keys, the map-equality test `pyDictEq` holds exactly when
every lookup agrees. -/
theorem pyDictEq_iff {V : Type} [DecidableEq V] (d1 d2 : List (String × V))
    (h1 : (d1.map Prod.fst).Nodup) (h2 : (d2.map Prod.fst).Nodup) :
    pyDictEq d1 d2 = true ↔ ∀ k, dget? d1 k = dget? d2 k := by
  simp only [pyDictEq, Bool.and_eq_true, List.all_eq_true, decide_eq_true_eq]
  constructor
  · rintro ⟨ha, hb⟩ k
    cases hh : dget? d1 k with
    | some v =>
        exact (ha _ ((dget?_eq_some_iff_mem d1 h1 k v).mp hh)).symm
    | none =>
        cases hh2 : dget? d2 k with
        | none => rfl
        | some v =>
            have hcontra := hb _ ((dget?_eq_some_iff_mem d2 h2 k v).mp hh2)
            simp only [hh] at hcontra
            exact hcontra
  · intro h
    constructor
    · intro p hp
      rw [← h p.1]
      exact (dget?_eq_some_iff_mem d1 h1 p.1 p.2).mpr hp
    · intro p hp
      rw [h p.1]
      exact (dget?_eq_some_iff_mem d2 h2 p.1 p.2).mpr hp

/-! ### Lemmas: `SON` operations -/

namespace SON

variable {V : Type}

theorem containsKey_iff (s : SON V) (k : String) :
    s.containsKey k = true ↔ k ∈ s.son_keys := by
  simp [containsKey]

theorem keys_setitem (s : SON V) (k : String) (v : V) :
    (s.setitem k v).son_keys =
      if k ∈ s.son_keys then s.son_keys else s.son_keys ++ [k] := by
  simp [setitem, containsKey]

theorem data_setitem (s : SON V) (k : String) (v : V) :
    (s.setitem k v).data = dset s.data k v := rfl

theorem dget?_setitem_self (s : SON V) (k : String) (v : V) :
    dget? (s.setitem k v).data k = some v := dget?_dset_self s.data k v

theorem dget?_setitem_ne (s : SON V) (k k' : String) (v : V) (h : k' ≠ k) :
    dget? (s.setitem k v).data k' = dget? s.data k' :=
  dget?_dset_ne s.data k k' v h

theorem WF_setitem (s : SON V) (k : String) (v : V) (h : s.WF) :
    (s.setitem k v).WF := by
  obtain ⟨h1, h2, h3, h4⟩ := h
  have hmem : k ∈ s.son_keys ↔ k ∈ s.data.map Prod.fst :=
    ⟨h3 k, h4 k⟩
  refine ⟨?_, ?_, ?_, ?_⟩
  · rw [keys_setitem]
    by_cases hk : k ∈ s.son_keys
    · simp [hk, h1]
    · simp only [hk, if_false]
      apply List.Nodup.append h1 (List.nodup_singleton k)
      intro a ha hb
      simp only [List.mem_singleton] at hb
      subst hb
      exact hk ha
  · rw [data_setitem]
    exact nodup_keys_dset s.data k v h2
  · intro k' hk'
    rw [keys_setitem] at hk'
    rw [data_setitem, keys_dset]
    by_cases hk : k ∈ s.son_keys
    · rw [if_pos hk] at hk'
      simp only [hmem.mp hk, if_true]
      exact h3 k' hk'
    · rw [if_neg hk] at hk'
      rcases List.mem_append.mp hk' with hh | hh
      · by_cases hkd : k ∈ s.data.map Prod.fst
        · simp only [hkd, if_true]
          exact h3 k' hh
        · simp only [hkd, if_false]
          exact List.mem_append_left _ (h3 k' hh)
      · simp only [List.mem_singleton] at hh
        subst hh
        by_cases hkd : k' ∈ s.data.map Prod.fst
        · simp [hkd]
        · simp [hkd]
  · intro k' hk'
    rw [data_setitem, keys_dset] at hk'
    rw [keys_setitem]
    by_cases hkd : k ∈ s.data.map Prod.fst
    · rw [if_pos hkd] at hk'
      have : k ∈ s.son_keys := hmem.mpr hkd
      simp only [this, if_true]
      exact h4 k' hk'
    · rw [if_neg hkd] at hk'
      have hk : k ∉ s.son_keys := fun hh => hkd (hmem.mp hh)
      simp only [hk, if_false]
      rcases List.mem_append.mp hk' with hh | hh
      · exact List.mem_append_left _ (h4 k' hh)
      · exact List.mem_append_right _ hh

/-- The order list after a fold of `setitem` over a pair sequence: the
fold of first-occurrence accumulation. -/
theorem keys_foldl_setitem (ps : List (String × V)) (s : SON V) :
    (ps.foldl (fun t p => t.setitem p.1 p.2) s).son_keys =
      ps.foldl (fun a p => if a.contains p.1 then a else a ++ [p.1])
        s.son_keys := by
  induction ps generalizing s with
  | nil => rfl
  | cons p rest ih =>
    simp only [List.foldl_cons]
    have hacc : (s.setitem p.1 p.2).son_keys =
        if s.son_keys.contains p.1 then s.son_keys
        else s.son_keys ++ [p.1] := by
      rw [keys_setitem]
      by_cases h : p.1 ∈ s.son_keys <;> simp [h]
    rw [ih, hacc]

/-- The dict contents after a fold of `setitem`: the last write to a key
wins, and a key never written keeps its prior binding. -/
theorem dget?_foldl_setitem (ps : List (String × V)) (s : SON V)
    (k : String) :
    dget? (ps.foldl (fun t p => t.setitem p.1 p.2) s).data k =
      match lastWrite? ps k with
      | some v => some v
      | none => dget? s.data k := by
  induction ps generalizing s with
  | nil => simp [lastWrite?]
  | cons p rest ih =>
    simp only [List.foldl_cons, lastWrite?]
    rw [ih]
    cases lastWrite? rest k with
    | some v => rfl
    | none =>
      by_cases h : p.1 = k
      · subst h
        simp [dget?_setitem_self]
      · rw [dget?_setitem_ne s p.1 k p.2 (Ne.symm h)]
        simp [h]

theorem WF_foldl_setitem (ps : List (String × V)) (s : SON V) (h : s.WF) :
    (ps.foldl (fun t p => t.setitem p.1 p.2) s).WF := by
  induction ps generalizing s with
  | nil => exact h
  | cons p rest ih =>
    simp only [List.foldl_cons]
    exact ih _ (WF_setitem s p.1 p.2 h)

theorem WF_empty : (empty : SON V).WF := by
  refine ⟨List.nodup_nil, List.nodup_nil, ?_, ?_⟩ <;> intro k hk <;>
    simp [empty] at hk

/-- Lookup in the ordered items list: defined for keys in the order
list, and agreeing with the underlying dict there. -/
theorem dget?_items_general (l : List String) (d : List (String × V))
    (k : String) :
    dget? (l.filterMap (fun k' => (dget? d k').map (fun v => (k', v)))) k =
      if k ∈ l then dget? d k else none := by
  induction l with
  | nil => simp [dget?]
  | cons k1 rest ih =>
    simp only [List.filterMap_cons]
    cases hd : dget? d k1 with
    | none =>
      rw [Option.map_none']
      rw [ih]
      by_cases h : k1 = k
      · subst h
        simp [hd]
      · simp [Ne.symm h]
    | some v =>
      rw [Option.map_some']
      simp only [dget?]
      by_cases h : k1 = k
      · subst h
        simp [hd]
      · simp [h, ih, Ne.symm h]

theorem dget?_items (s : SON V) (h : s.WF) (k : String) :
    dget? s.items k = dget? s.data k := by
  rw [items, dget?_items_general]
  by_cases hk : k ∈ s.son_keys
  · simp [hk]
  · simp only [hk, if_false]
    have : k ∉ s.data.map Prod.fst := fun hh => hk (h.2.2.2 k hh)
    rw [mem_keys_dget?_isSome] at this
    exact (Option.not_isSome_iff_eq_none.mp this).symm

theorem filterMap_items_map_fst (l : List String) (d : List (String × V))
    (hmem : ∀ k ∈ l, (dget? d k).isSome) :
    (l.filterMap (fun k' => (dget? d k').map (fun v => (k', v)))).map
      Prod.fst = l := by
  induction l with
  | nil => rfl
  | cons k1 rest ih =>
    have h1 := hmem k1 (List.mem_cons_self k1 rest)
    cases hd : dget? d k1 with
    | none => rw [hd] at h1; cases h1
    | some v =>
      simp only [List.filterMap_cons, hd, Option.map_some', List.map_cons]
      rw [ih (fun k hk => hmem k (List.mem_cons_of_mem k1 hk))]

/-- Under well-formedness every ordered key resolves, so the items list
pairs the order list exactly. -/
theorem items_map_fst (s : SON V) (h : s.WF) :
    s.items.map Prod.fst = s.son_keys := by
  rw [items]
  apply filterMap_items_map_fst
  intro k hk
  rw [← mem_keys_dget?_isSome]
  exact h.2.2.1 k hk

theorem items_length (s : SON V) (h : s.WF) :
    s.items.length = s.son_keys.length := by
  rw [← items_map_fst s h, List.length_map]

theorem lastWrite?_eq_dget? (l : List (String × V))
    (h : (l.map Prod.fst).Nodup) (k : String) :
    lastWrite? l k = dget? l k := by
  induction l with
  | nil => rfl
  | cons p rest ih =>
    obtain ⟨k0, v0⟩ := p
    simp only [List.map_cons, List.nodup_cons] at h
    simp only [lastWrite?, dget?]
    rw [ih h.2]
    by_cases h0 : k0 = k
    · subst h0
      have hnone : k0 ∉ rest.map Prod.fst := h.1
      rw [mem_keys_dget?_isSome] at hnone
      rw [Option.not_isSome_iff_eq_none.mp hnone]
    · cases hd : dget? rest k <;> simp [h0]

theorem dget?_foldl_dset (l : List (String × V)) (d0 : List (String × V))
    (k : String) :
    dget? (l.foldl (fun d p => dset d p.1 p.2) d0) k =
      match lastWrite? l k with
      | some v => some v
      | none => dget? d0 k := by
  induction l generalizing d0 with
  | nil => simp [lastWrite?]
  | cons p rest ih =>
    simp only [List.foldl_cons, lastWrite?]
    rw [ih]
    cases lastWrite? rest k with
    | some v => rfl
    | none =>
      by_cases h : p.1 = k
      · subst h
        simp [dget?_dset_self]
      · rw [dget?_dset_ne d0 p.1 k p.2 (Ne.symm h)]
        simp [h]

/-- `dict(self.iteritems())` has the same contents as the underlying
dict. -/
theorem dget?_dictOfItems (s : SON V) (h : s.WF) (k : String) :
    dget? (dictOfItems s) k = dget? s.data k := by
  rw [dictOfItems, dget?_foldl_dset]
  have hnodup : (s.items.map Prod.fst).Nodup := by
    rw [items_map_fst s h]
    exact h.1
  rw [lastWrite?_eq_dget? s.items hnodup, dget?_items s h]
  cases dget? s.data k <;> simp [dget?]

/-- A successful delete removes the key from the order list and the
dict, and preserves well-formedness. -/
theorem delitem_ok (s : SON V) (k : String) (t : SON V) (h : s.WF)
    (hok : s.delitem k = .ok t) :
    t.son_keys = s.son_keys.erase k ∧ t.data = ddel s.data k ∧ t.WF := by
  obtain ⟨h1, h2, h3, h4⟩ := h
  rw [delitem] at hok
  by_cases hc : s.son_keys.contains k
  · rw [if_pos hc] at hok
    by_cases hs : (dget? s.data k).isSome
    · rw [if_pos hs, Except.ok.injEq] at hok
      subst hok
      refine ⟨rfl, rfl, h1.erase k, ?_, ?_, ?_⟩
      · rw [keys_ddel]
        exact h2.erase k
      · intro k' hk'
        rw [h1.mem_erase_iff] at hk'
        rw [keys_ddel, h2.mem_erase_iff]
        exact ⟨hk'.1, h3 k' hk'.2⟩
      · intro k' hk'
        rw [keys_ddel, h2.mem_erase_iff] at hk'
        rw [h1.mem_erase_iff]
        exact ⟨hk'.1, h4 k' hk'.2⟩
    · rw [if_neg hs] at hok
      cases hok
  · rw [if_neg hc] at hok
    cases hok

/-! Characterization of `update` per source shape. -/

theorem update_noSource (s : SON V) (kwargs : List (String × V)) :
    s.update .noSource kwargs =
      .ok (kwargs.foldl (fun t p => t.setitem p.1 p.2) s) := rfl

theorem update_son (s o : SON V) (kwargs : List (String × V)) :
    s.update (.son o) kwargs =
      .ok ((o.items ++ kwargs).foldl (fun t p => t.setitem p.1 p.2) s) := by
  simp [update, List.foldl_append, bind, Except.bind, pure, Except.pure]

theorem update_pairs (s : SON V) (l kwargs : List (String × V)) :
    s.update (.pairs l) kwargs =
      .ok ((l ++ kwargs).foldl (fun t p => t.setitem p.1 p.2) s) := by
  simp [update, List.foldl_append, bind, Except.bind, pure, Except.pure]

theorem update_unsupported (s : SON V) (kwargs : List (String × V)) :
    s.update .unsupported kwargs = .error .typeError := rfl

/-- The mapping loop of `update` never fails (every key produced by
`keys()` resolves in the mapping) and sets each key to its mapping
value. -/
theorem foldlM_mapping_ok (m : List (String × V)) (ks : List String)
    (h : ∀ k ∈ ks, (dget? m k).isSome) (s : SON V) :
    (ks.foldlM (fun t k =>
        match dget? m k with
        | some v => pure (t.setitem k v)
        | none => .error (.keyError k)) s : Except PyErr (SON V)) =
      .ok (ks.foldl (fun t k =>
        match dget? m k with
        | some v => t.setitem k v
        | none => t) s) := by
  induction ks generalizing s with
  | nil => rfl
  | cons k0 rest ih =>
    have h0 := h k0 (List.mem_cons_self k0 rest)
    cases hd : dget? m k0 with
    | none => rw [hd] at h0; cases h0
    | some v =>
      simp only [List.foldlM_cons, List.foldl_cons, hd]
      rw [← ih (fun k hk => h k (List.mem_cons_of_mem k0 hk)) (s.setitem k0 v)]
      rfl

/-- With unique mapping keys, the mapping branch of `update` applies
`set` per pair of the mapping in source order, then the keyword
overrides. -/
theorem update_mapping (s : SON V) (m kwargs : List (String × V))
    (hnodup : (m.map Prod.fst).Nodup) :
    s.update (.mapping m) kwargs =
      .ok ((m ++ kwargs).foldl (fun t p => t.setitem p.1 p.2) s) := by
  have hsome : ∀ k ∈ mappingKeys m, (dget? m k).isSome := by
    intro k hk
    rw [← mem_keys_dget?_isSome]
    exact hk
  have hfold : (mappingKeys m).foldl (fun t k =>
      match dget? m k with
      | some v => t.setitem k v
      | none => t) s = m.foldl (fun t p => t.setitem p.1 p.2) s := by
    clear hsome
    induction m generalizing s with
    | nil => rfl
    | cons p rest ih =>
      obtain ⟨k0, v0⟩ := p
      simp only [List.map_cons, List.nodup_cons] at hnodup
      simp only [mappingKeys, List.map_cons, List.foldl_cons, dget?,
        eq_self_iff_true, if_true]
      rw [show (rest.map Prod.fst).foldl (fun t k =>
          match if k0 = k then some v0 else dget? rest k with
          | some v => t.setitem k v
          | none => t) (s.setitem k0 v0) =
        (rest.map Prod.fst).foldl (fun t k =>
          match dget? rest k with
          | some v => t.setitem k v
          | none => t) (s.setitem k0 v0) from ?_]
      · exact ih (s.setitem k0 v0) hnodup.2
      · apply List.foldl_ext
        intro t k hk
        have hne : k0 ≠ k := by
          intro he
          exact hnodup.1 (he ▸ hk)
        simp [hne]
  simp only [update, bind, Except.bind]
  rw [foldlM_mapping_ok m (mappingKeys m) hsome s]
  simp only [pure, Except.pure, Except.ok.injEq]
  rw [hfold, List.foldl_append]

/-- Each step of the mapping loop is a `setitem`, so a successful run
preserves well-formedness. -/
theorem WF_foldlM_mapping (m : List (String × V)) (ks : List String) :
    ∀ s t : SON V, s.WF →
      (ks.foldlM (fun t k =>
          match dget? m k with
          | some v => pure (t.setitem k v)
          | none => .error (.keyError k)) s : Except PyErr (SON V)) = .ok t →
      t.WF := by
  induction ks with
  | nil =>
      intro s t hs hf
      simp only [List.foldlM_nil, pure, Except.pure, Except.ok.injEq] at hf
      exact hf ▸ hs
  | cons k0 rest ih =>
      intro s t hs hf
      rw [List.foldlM_cons] at hf
      cases hd : dget? m k0 with
      | none =>
          rw [hd] at hf
          simp only [bind, Except.bind] at hf
          cases hf
      | some v =>
          rw [hd] at hf
          simp only [bind, Except.bind, pure, Except.pure] at hf
          exact ih (s.setitem k0 v) t (WF_setitem s k0 v hs) hf

/-- Any successful `update` preserves well-formedness. -/
theorem WF_update (s : SON V) (other : UpdateSource V)
    (kwargs : List (String × V)) (t : SON V) (h : s.WF)
    (hok : s.update other kwargs = .ok t) : t.WF := by
  cases other with
  | noSource =>
      rw [update_noSource, Except.ok.injEq] at hok
      subst hok
      exact WF_foldl_setitem kwargs s h
  | son o =>
      rw [update_son, Except.ok.injEq] at hok
      subst hok
      exact WF_foldl_setitem _ s h
  | pairs l =>
      rw [update_pairs, Except.ok.injEq] at hok
      subst hok
      exact WF_foldl_setitem _ s h
  | unsupported =>
      rw [update_unsupported] at hok
      cases hok
  | mapping m =>
      simp only [update, bind, Except.bind] at hok
      cases hfold : ((mappingKeys m).foldlM (fun t k =>
          match dget? m k with
          | some v => pure (t.setitem k v)
          | none => .error (.keyError k)) s : Except PyErr (SON V)) with
      | error err => rw [hfold] at hok; cases hok
      | ok s1 =>
          rw [hfold] at hok
          simp only [pure, Except.pure, Except.ok.injEq] at hok
          subst hok
          exact WF_foldl_setitem kwargs s1
            (WF_foldlM_mapping m (mappingKeys m) s s1 h hfold)

/-- On a well-formed document, `clear` deletes every key and leaves the
truly empty state. -/
theorem clear_ok (s : SON V) (h : s.WF) : s.clear = .ok (empty : SON V) := by
  rw [clear]
  have hgen : ∀ (ks : List String) (t : SON V), t.WF → t.son_keys = ks →
      (ks.foldlM (fun u k => u.delitem k) t : Except PyErr (SON V)) =
        .ok empty := by
    intro ks
    induction ks with
    | nil =>
        intro t ht hkeys
        have hdata : t.data = [] := by
          cases hdd : t.data with
          | nil => rfl
          | cons p rest =>
              exfalso
              have hp : p.1 ∈ t.data.map Prod.fst := by
                rw [hdd]
                exact List.mem_map_of_mem Prod.fst (List.mem_cons_self p rest)
              have hmem := ht.2.2.2 p.1 hp
              rw [hkeys] at hmem
              cases hmem
        have ht' : t = empty := by
          obtain ⟨ks, dd⟩ := t
          simp only [empty, SON.mk.injEq]
          exact ⟨hkeys, hdata⟩
        rw [ht']
        rfl
    | cons k0 rest ih =>
        intro t ht hkeys
        have hmem : k0 ∈ t.son_keys := by
          rw [hkeys]
          exact List.mem_cons_self k0 rest
        have hsome : (dget? t.data k0).isSome := by
          rw [← mem_keys_dget?_isSome]
          exact ht.2.2.1 k0 hmem
        have hdel : t.delitem k0 =
            .ok ⟨t.son_keys.erase k0, ddel t.data k0⟩ := by
          rw [delitem, if_pos (List.elem_iff.mpr hmem), if_pos hsome]
        obtain ⟨hk', hd', hwf'⟩ :=
          delitem_ok t k0 ⟨t.son_keys.erase k0, ddel t.data k0⟩ ht hdel
        rw [List.foldlM_cons, hdel]
        simp only [bind, Except.bind]
        apply ih ⟨t.son_keys.erase k0, ddel t.data k0⟩ hwf'
        rw [show (⟨t.son_keys.erase k0, ddel t.data k0⟩ : SON V).son_keys =
          t.son_keys.erase k0 from rfl, hkeys, List.erase_cons_head]
  exact hgen s.son_keys s h rfl

/-- A successful `pop` preserves well-formedness. -/
theorem WF_pop (s : SON V) (k : String) (args : List V) (t : SON V) (v : V)
    (h : s.WF) (hok : s.pop k args = .ok (t, v)) : t.WF := by
  rw [pop.eq_def] at hok
  by_cases hlen : args.length > 1
  · rw [if_pos hlen] at hok
    cases hok
  · rw [if_neg hlen] at hok
    cases hd : dget? s.data k with
    | none =>
        rw [hd] at hok
        cases args with
        | nil => cases hok
        | cons d rest =>
            simp only [Except.ok.injEq, Prod.mk.injEq] at hok
            exact hok.1 ▸ h
    | some v0 =>
        rw [hd] at hok
        simp only [bind, Except.bind] at hok
        cases hdel : s.delitem k with
        | error err => rw [hdel] at hok; cases hok
        | ok t0 =>
            rw [hdel] at hok
            simp only [pure, Except.pure, Except.ok.injEq,
              Prod.mk.injEq] at hok
            exact hok.1 ▸ (delitem_ok s k t0 h hdel).2.2

/-- A successful `popitem` preserves well-formedness. -/
theorem WF_popitem (s : SON V) (t : SON V) (p : String × V) (h : s.WF)
    (hok : s.popitem = .ok (t, p)) : t.WF := by
  rw [popitem] at hok
  cases hkeys : s.son_keys with
  | nil => rw [hkeys] at hok; cases hok
  | cons k0 rest =>
      rw [hkeys] at hok
      simp only [bind, Except.bind] at hok
      cases hget : s.getitem k0 with
      | error err => rw [hget] at hok; cases hok
      | ok v0 =>
          rw [hget] at hok
          cases hdel : s.delitem k0 with
          | error err => rw [hdel] at hok; cases hok
          | ok t0 =>
              rw [hdel] at hok
              simp only [pure, Except.pure, Except.ok.injEq,
                Prod.mk.injEq] at hok
              exact hok.1 ▸ (delitem_ok s k0 t0 h hdel).2.2

/-- `setdefault` preserves well-formedness. -/
theorem WF_setdefault (s : SON V) (k : String) (d : V) (h : s.WF) :
    (s.setdefault k d).1.WF := by
  rw [setdefault]
  cases dget? s.data k with
  | some v => exact h
  | none => exact WF_setitem s k d h

/-- A successful `__init__` produces a well-formed document. -/
theorem WF_init (data : UpdateSource V) (kwargs : List (String × V))
    (t : SON V) (hok : init data kwargs = .ok t) : t.WF := by
  rw [init] at hok
  simp only [bind, Except.bind] at hok
  cases h1 : update empty data [] with
  | error err => rw [h1] at hok; cases hok
  | ok s1 =>
      rw [h1] at hok
      exact WF_update s1 (.pairs kwargs) [] t
        (WF_update empty data [] s1 WF_empty h1) hok

/-- `copy` always succeeds and produces a well-formed document. -/
theorem WF_copy (s : SON V) (t : SON V) (hok : s.copy = .ok t) : t.WF := by
  rw [copy] at hok
  exact WF_update empty (.son s) [] t WF_empty hok

/-- Under the invariant the ordered key list counts exactly the distinct
keys of the underlying dict. -/
theorem length_eq_distinct (s : SON V) (h : s.WF) :
    s.length = (s.data.map Prod.fst).dedup.length := by
  obtain ⟨h1, h2, h3, h4⟩ := h
  have hperm : s.son_keys.Perm (s.data.map Prod.fst) :=
    (List.perm_ext_iff_of_nodup h1 h2).mpr
      (fun k => ⟨h3 k, h4 k⟩)
  rw [length, keys, List.dedup_eq_self.mpr h2]
  exact hperm.length_eq

theorem firstDedup_eq_self (l : List String) (h : l.Nodup) :
    firstDedup l = l := by
  have hgen : ∀ (l acc : List String), l.Nodup → (∀ k ∈ l, k ∉ acc) →
      l.foldl (fun a k => if a.contains k then a else a ++ [k]) acc =
        acc ++ l := by
    intro l
    induction l with
    | nil => intro acc _ _; simp
    | cons k0 rest ih =>
        intro acc hnd hdisj
        simp only [List.nodup_cons] at hnd
        have hk0 : ¬acc.contains k0 = true := by
          simp only [List.elem_iff]
          exact hdisj k0 (List.mem_cons_self k0 rest)
        simp only [List.foldl_cons]
        rw [if_neg hk0]
        rw [ih (acc ++ [k0]) hnd.2 ?_]
        · simp
        · intro k hk
          rw [List.mem_append, List.mem_singleton]
          rintro (hh | hh)
          · exact hdisj k (List.mem_cons_of_mem k0 hk) hh
          · exact hnd.1 (hh ▸ hk)
  rw [firstDedup, hgen l [] h (by simp)]
  simp

theorem nodup_keys_foldl_dset {V : Type} (l : List (String × V))
    (d0 : List (String × V)) (h : (d0.map Prod.fst).Nodup) :
    (((l.foldl (fun d p => dset d p.1 p.2) d0)).map Prod.fst).Nodup := by
  induction l generalizing d0 with
  | nil => exact h
  | cons p rest ih =>
      simp only [List.foldl_cons]
      exact ih _ (nodup_keys_dset d0 p.1 p.2 h)

theorem nodup_keys_dictOfItems (s : SON V) :
    ((dictOfItems s).map Prod.fst).Nodup := by
  rw [dictOfItems]
  exact nodup_keys_foldl_dset s.items [] List.nodup_nil

end SON

/-! ### Claim theorems -/

/-- C1: for every sequence of `set(key, value)` calls on a fresh
OrderedDocument (keys possibly repeating), the resulting `keys()`
sequence equals the distinct keys in order of first insertion — a set on
an absent key appends it at the end of the order — and the stored value
under each key is the last one written, so re-setting an existing key
overwrites the value while leaving the key's position unchanged. -/
theorem claim_C1 {V : Type} (ps : List (String × V)) :
    (ps.foldl (fun t p => t.setitem p.1 p.2) SON.empty).keys =
        firstDedup (ps.map Prod.fst) ∧
      ∀ k, dget? (ps.foldl (fun t p => t.setitem p.1 p.2)
        SON.empty).data k = lastWrite? ps k := by
  constructor
  · rw [SON.keys, SON.keys_foldl_setitem, firstDedup, List.foldl_map]
    rfl
  · intro k
    rw [SON.dget?_foldl_setitem]
    cases lastWrite? ps k <;> rfl

/-- C2: for every well-formed OrderedDocument `d`, constructing a new
OrderedDocument from the pair sequence `d.items()` succeeds and yields a
document that is order-sensitively equal to `d` under the class's own
comparison: same keys, same values, same insertion order. -/
theorem claim_C2 {V : Type} [DecidableEq V] (d : SON V) (h : d.WF) :
    ∃ c : SON V, SON.init (.pairs d.items) [] = .ok c ∧
      c.cmpEq (.son d) = true ∧ c.keys = d.keys ∧
      ∀ k, dget? c.data k = dget? d.data k := by
  refine ⟨d.items.foldl (fun t p => t.setitem p.1 p.2) SON.empty, ?_, ?_⟩
  · rw [SON.init]
    simp [SON.update_pairs, bind, Except.bind]
  · have hitems_fst := SON.items_map_fst d h
    have hkeys : (d.items.foldl (fun t p => t.setitem p.1 p.2)
        SON.empty).keys = d.keys := by
      rw [(claim_C1 d.items).1, hitems_fst, SON.keys,
        SON.firstDedup_eq_self _ h.1]
    have hnodup_items : (d.items.map Prod.fst).Nodup := by
      rw [hitems_fst]; exact h.1
    have hdata : ∀ k, dget? (d.items.foldl (fun t p => t.setitem p.1 p.2)
        SON.empty).data k = dget? d.data k := by
      intro k
      rw [(claim_C1 d.items).2 k,
        SON.lastWrite?_eq_dget? d.items hnodup_items, SON.dget?_items d h]
    refine ⟨?_, hkeys, hdata⟩
    have hwfc : (d.items.foldl (fun t p => t.setitem p.1 p.2)
        SON.empty).WF := SON.WF_foldl_setitem d.items SON.empty SON.WF_empty
    rw [SON.cmpEq]
    rw [Bool.and_eq_true]
    constructor
    · rw [pyDictEq_iff _ _ (SON.nodup_keys_dictOfItems _)
        (SON.nodup_keys_dictOfItems _)]
      intro k
      rw [SON.dget?_dictOfItems _ hwfc, SON.dget?_dictOfItems _ h]
      exact hdata k
    · simp only [decide_eq_true_eq]
      exact hkeys

/-- C2 witness: a concrete two-key document rebuilt from its items. -/
theorem claim_C2_witness :
    (SON.mk ["b", "a"] [("a", (1 : Int)), ("b", 2)]).WF ∧
      ∃ c : SON Int,
        SON.init (.pairs (SON.mk ["b", "a"]
          [("a", (1 : Int)), ("b", 2)]).items) [] = .ok c ∧
        c.cmpEq (.son (SON.mk ["b", "a"] [("a", (1 : Int)), ("b", 2)])) =
          true ∧
        c.keys = (SON.mk ["b", "a"] [("a", (1 : Int)), ("b", 2)]).keys ∧
        ∀ k, dget? c.data k =
          dget? (SON.mk ["b", "a"] [("a", (1 : Int)), ("b", 2)]).data k :=
  ⟨by decide, claim_C2 (SON.mk ["b", "a"] [("a", (1 : Int)), ("b", 2)])
    (by decide)⟩

/-- C5: the single comparison operation `__cmp__` is type-directed:
against another OrderedDocument it is order-sensitive — equal exactly
when the key lists (hence the key order) coincide and every lookup
agrees — while against a plain unordered mapping it is value-only —
equal exactly when every lookup agrees, order ignored. -/
theorem claim_C5 {V : Type} [DecidableEq V] (s t : SON V)
    (d : List (String × V)) (hs : s.WF) (ht : t.WF)
    (hd : (d.map Prod.fst).Nodup) :
    (s.cmpEq (.son t) = true ↔
      (s.keys = t.keys ∧ ∀ k, dget? s.data k = dget? t.data k)) ∧
    (s.cmpEq (.pydict d) = true ↔ ∀ k, dget? s.data k = dget? d k) := by
  constructor
  · rw [SON.cmpEq, Bool.and_eq_true]
    rw [pyDictEq_iff _ _ (SON.nodup_keys_dictOfItems s)
      (SON.nodup_keys_dictOfItems t)]
    simp only [decide_eq_true_eq]
    constructor
    · rintro ⟨hmap, hkeys⟩
      refine ⟨hkeys, fun k => ?_⟩
      have := hmap k
      rwa [SON.dget?_dictOfItems s hs, SON.dget?_dictOfItems t ht] at this
    · rintro ⟨hkeys, hmap⟩
      refine ⟨fun k => ?_, hkeys⟩
      rw [SON.dget?_dictOfItems s hs, SON.dget?_dictOfItems t ht]
      exact hmap k
  · rw [SON.cmpEq]
    rw [pyDictEq_iff _ _ (SON.nodup_keys_dictOfItems s) hd]
    constructor
    · intro hmap k
      have := hmap k
      rwa [SON.dget?_dictOfItems s hs] at this
    · intro hmap k
      rw [SON.dget?_dictOfItems s hs]
      exact hmap k

/-- C5 witness: a document compared against an equal document with a
differently-ordered dict, and against a plain mapping. -/
theorem claim_C5_witness :
    (SON.mk ["a", "b"] [("b", (2 : Int)), ("a", 1)]).WF ∧
    (SON.mk ["a", "b"] [("a", (1 : Int)), ("b", 2)]).WF ∧
    ([("b", (2 : Int)), ("a", 1)].map Prod.fst).Nodup ∧
    (((SON.mk ["a", "b"] [("b", (2 : Int)), ("a", 1)]).cmpEq
        (.son (SON.mk ["a", "b"] [("a", (1 : Int)), ("b", 2)])) = true ↔
      ((SON.mk ["a", "b"] [("b", (2 : Int)), ("a", 1)]).keys =
          (SON.mk ["a", "b"] [("a", (1 : Int)), ("b", 2)]).keys ∧
        ∀ k, dget? (SON.mk ["a", "b"] [("b", (2 : Int)), ("a", 1)]).data k =
          dget? (SON.mk ["a", "b"] [("a", (1 : Int)), ("b", 2)]).data k)) ∧
    ((SON.mk ["a", "b"] [("b", (2 : Int)), ("a", 1)]).cmpEq
        (.pydict [("b", (2 : Int)), ("a", 1)]) = true ↔
      ∀ k, dget? (SON.mk ["a", "b"] [("b", (2 : Int)), ("a", 1)]).data k =
        dget? [("b", (2 : Int)), ("a", 1)] k)) :=
  ⟨by decide, by decide, by decide,
    claim_C5 (SON.mk ["a", "b"] [("b", (2 : Int)), ("a", 1)])
      (SON.mk ["a", "b"] [("a", (1 : Int)), ("b", 2)])
      [("b", (2 : Int)), ("a", 1)] (by decide) (by decide) (by decide)⟩

/-- C6 counterexample: on an absent key, `delete` raises `ValueError`
(from `list.remove` on the hidden order list), which is not the
key-lookup error `KeyError` that the claim's `KeyNotFound` names (and
that `pop`/`getitem` raise for absent keys). -/
theorem claim_C6_counterexample :
    SON.delitem (SON.empty : SON Int) "a" = .error .valueError ∧
      (Except.error .valueError : Except PyErr (SON Int)) ≠
        .error (.keyError "a") := by
  decide

/-- C6 (amended): on a well-formed document, `delete(key)` on an absent
key fails with `ValueError` — a value-not-in-list error from removing
the key from the hidden order list, not a key-lookup error — and the
document is left unchanged; on a present key it removes the key from
both the value lookup and the order record. -/
theorem claim_C6 {V : Type} (s : SON V) (k : String) (h : s.WF) :
    (k ∉ s.keys → s.delitem k = .error .valueError) ∧
    (k ∈ s.keys → ∃ t, s.delitem k = .ok t ∧
      t.son_keys = s.son_keys.erase k ∧ k ∉ t.son_keys ∧
      dget? t.data k = none ∧
      ∀ k', k' ≠ k → dget? t.data k' = dget? s.data k') := by
  constructor
  · intro habs
    rw [SON.delitem, if_neg]
    simp only [List.elem_iff]
    exact habs
  · intro hmem
    have hmem' : k ∈ s.son_keys := hmem
    have hsome : (dget? s.data k).isSome := by
      rw [← mem_keys_dget?_isSome]
      exact h.2.2.1 k hmem'
    have hdel : s.delitem k =
        .ok ⟨s.son_keys.erase k, ddel s.data k⟩ := by
      rw [SON.delitem, if_pos (List.elem_iff.mpr hmem'), if_pos hsome]
    refine ⟨⟨s.son_keys.erase k, ddel s.data k⟩, hdel, rfl, ?_, ?_, ?_⟩
    · intro hk
      exact ((h.1.mem_erase_iff).mp hk).1 rfl
    · exact dget?_ddel_self s.data k h.2.1
    · intro k' hk'
      exact dget?_ddel_ne s.data k k' hk'

/-- C6 witness: deleting an absent and then a present key of a concrete
document. -/
theorem claim_C6_witness :
    (SON.mk ["a"] [("a", (1 : Int))]).WF ∧
    (SON.delitem (SON.mk ["a"] [("a", (1 : Int))]) "x" =
      .error .valueError) ∧
    (∃ t, SON.delitem (SON.mk ["a"] [("a", (1 : Int))]) "a" = .ok t ∧
      t.son_keys = (SON.mk ["a"] [("a", (1 : Int))]).son_keys.erase "a" ∧
      "a" ∉ t.son_keys ∧ dget? t.data "a" = none ∧
      ∀ k', k' ≠ "a" →
        dget? t.data k' = dget? (SON.mk ["a"] [("a", (1 : Int))]).data k') :=
  ⟨by decide,
    (claim_C6 (SON.mk ["a"] [("a", (1 : Int))]) "x" (by decide)).1
      (by decide),
    (claim_C6 (SON.mk ["a"] [("a", (1 : Int))]) "a" (by decide)).2
      (by decide)⟩

/-- C7: `update` accepts exactly the three source shapes — another
OrderedDocument (iterating its pairs), a generic mapping exposing `keys`
and indexed lookup, or a sequence of pairs — applying `set` per pair in
source order in each case, with the keyword overrides applied via `set`
after all pairs of the source; a source of unsupported shape fails with
`TypeError` (the spec's `ArgumentError`). `None`, the default, means no
source and applies only the overrides. -/
theorem claim_C7 {V : Type} (s o : SON V) (m l kwargs : List (String × V))
    (hm : (m.map Prod.fst).Nodup) :
    s.update (.son o) kwargs =
        .ok ((o.items ++ kwargs).foldl (fun t p => t.setitem p.1 p.2) s) ∧
    s.update (.mapping m) kwargs =
        .ok ((m ++ kwargs).foldl (fun t p => t.setitem p.1 p.2) s) ∧
    s.update (.pairs l) kwargs =
        .ok ((l ++ kwargs).foldl (fun t p => t.setitem p.1 p.2) s) ∧
    s.update .unsupported kwargs = .error .typeError ∧
    s.update .noSource kwargs =
        .ok (kwargs.foldl (fun t p => t.setitem p.1 p.2) s) :=
  ⟨SON.update_son s o kwargs, SON.update_mapping s m kwargs hm,
    SON.update_pairs s l kwargs, SON.update_unsupported s kwargs,
    SON.update_noSource s kwargs⟩

/-- C7 witness: the five update shapes on concrete inputs. -/
theorem claim_C7_witness :
    ([("m1", (10 : Int)), ("m2", 20)].map Prod.fst).Nodup ∧
    (SON.mk ["a"] [("a", (1 : Int))]).update
        (.son (SON.mk ["b"] [("b", 2)])) [("kw", 9)] =
      .ok (((SON.mk ["b"] [("b", (2 : Int))]).items ++ [("kw", 9)]).foldl
        (fun (t : SON Int) (p : String × Int) => t.setitem p.1 p.2)
        (SON.mk ["a"] [("a", 1)])) ∧
    (SON.mk ["a"] [("a", (1 : Int))]).update
        (.mapping [("m1", 10), ("m2", 20)]) [("kw", 9)] =
      .ok (([("m1", (10 : Int)), ("m2", 20)] ++ [("kw", 9)]).foldl
        (fun (t : SON Int) (p : String × Int) => t.setitem p.1 p.2)
        (SON.mk ["a"] [("a", 1)])) ∧
    (SON.mk ["a"] [("a", (1 : Int))]).update .unsupported [("kw", 9)] =
      .error .typeError := by
  have h := claim_C7 (SON.mk ["a"] [("a", (1 : Int))])
    (SON.mk ["b"] [("b", 2)]) [("m1", 10), ("m2", 20)] [("p", 5)]
    [("kw", 9)] (by decide)
  exact ⟨by decide, h.1, h.2.1, h.2.2.2.1⟩

/-- C9 (implicit invariant): the hidden order list always holds exactly
the keys stored in the underlying dict, each once — the invariant `WF`
holds for a fresh document and is preserved by every operation
(construction, set, delete, update, copy, clear, pop, pop_item,
setdefault); consequently `length()` equals the number of distinct
stored keys, and `keys()`, `values()`, `items()` are positionally
aligned sequences of the same length. -/
theorem claim_C9 {V : Type} :
    ((SON.empty : SON V).WF) ∧
    (∀ (s : SON V) k v, s.WF → (s.setitem k v).WF) ∧
    (∀ (s t : SON V) k, s.WF → s.delitem k = .ok t → t.WF) ∧
    (∀ (s t : SON V) other kwargs, s.WF →
      s.update other kwargs = .ok t → t.WF) ∧
    (∀ (t : SON V) data kwargs, SON.init data kwargs = .ok t → t.WF) ∧
    (∀ (s t : SON V), s.copy = .ok t → t.WF) ∧
    (∀ s : SON V, s.WF → s.clear = .ok SON.empty) ∧
    (∀ (s t : SON V) k args v, s.WF → s.pop k args = .ok (t, v) → t.WF) ∧
    (∀ (s t : SON V) p, s.WF → s.popitem = .ok (t, p) → t.WF) ∧
    (∀ (s : SON V) k d, s.WF → (s.setdefault k d).1.WF) ∧
    (∀ s : SON V, s.WF →
      s.length = (s.data.map Prod.fst).dedup.length) ∧
    (∀ s : SON V, s.WF →
      s.keys = s.items.map Prod.fst ∧ s.values = s.items.map Prod.snd ∧
        s.items.length = s.length ∧ s.values.length = s.length) :=
  ⟨SON.WF_empty,
    fun s k v h => SON.WF_setitem s k v h,
    fun s t k h hok => (SON.delitem_ok s k t h hok).2.2,
    fun s t other kwargs h hok => SON.WF_update s other kwargs t h hok,
    fun t data kwargs hok => SON.WF_init data kwargs t hok,
    fun s t hok => SON.WF_copy s t hok,
    fun s h => SON.clear_ok s h,
    fun s t k args v h hok => SON.WF_pop s k args t v h hok,
    fun s t p h hok => SON.WF_popitem s t p h hok,
    fun s k d h => SON.WF_setdefault s k d h,
    fun s h => SON.length_eq_distinct s h,
    fun s h =>
      ⟨(SON.items_map_fst s h).symm, rfl,
        by rw [SON.items_length s h]; rfl,
        by rw [SON.values, List.length_map, SON.items_length s h]; rfl⟩⟩

/-- C9 witness: the invariant and the alignment facts at a concrete
document reached by a `set` on a fresh document. -/
theorem claim_C9_witness :
    ((SON.empty : SON Int).setitem "a" 1).WF ∧
    (((SON.empty : SON Int).setitem "a" 1).length =
      ((((SON.empty : SON Int).setitem "a" 1).data.map
        Prod.fst).dedup.length)) ∧
    ((SON.empty : SON Int).setitem "a" 1).keys =
      ((SON.empty : SON Int).setitem "a" 1).items.map Prod.fst := by
  have h1 := (@claim_C9 Int).2.1 SON.empty "a" 1 (@claim_C9 Int).1
  exact ⟨h1, (@claim_C9 Int).2.2.2.2.2.2.2.2.2.2.1 _ h1,
    ((@claim_C9 Int).2.2.2.2.2.2.2.2.2.2.2 _ h1).1⟩

/-! ### C8: `to_dict` / `transform_value` -/

theorem transform_list_eq_map (l : List Value) :
    transform_list l = l.map transform_value := by
  induction l with
  | nil => simp [transform_list]
  | cons v rest ih => simp [transform_list, ih]

theorem dget?_transform_assoc (d : List (String × Value)) (k : String) :
    dget? (transform_assoc d) k = (dget? d k).map transform_value := by
  induction d with
  | nil => simp [transform_assoc, dget?]
  | cons p rest ih =>
    obtain ⟨k0, v0⟩ := p
    by_cases h : k0 = k
    · simp [transform_assoc, dget?, h]
    · simp [transform_assoc, dget?, h, ih]

theorem transform_value_scalar (v : Value) (h : isScalar v = true) :
    transform_value v = v := by
  cases v <;> simp_all [isScalar, transform_value]

/-- The converter leaves no document reachable through arrays or plain
dicts. -/
theorem docFree_transform (v : Value) :
    docFree (transform_value v) = true := by
  refine transform_value.induct
    (fun v => docFree (transform_value v) = true)
    (fun d => docFreeAssoc (transform_assoc d) = true)
    (fun l => docFreeList (transform_list l) = true)
    ?_ ?_ ?_ ?_ ?_ ?_ ?_ ?_ v
  · intro l hl
    simp [transform_value, docFree, hl]
  · intro ks data hd
    simp [transform_value, docFree, hd]
  · intro d hd
    simp [transform_value, docFree, hd]
  · intro v h1 h2 h3
    cases v with
    | varray l => exact absurd rfl (h1 l)
    | vdoc d =>
        obtain ⟨ks, data⟩ := d
        exact absurd rfl (h2 ks data)
    | vdict d => exact absurd rfl (h3 d)
    | vnull => simp [transform_value, docFree]
    | vbool b => simp [transform_value, docFree]
    | vint n => simp [transform_value, docFree]
    | vnumber t => simp [transform_value, docFree]
    | vstr t => simp [transform_value, docFree]
    | vcode t => simp [transform_value, docFree]
    | vbinary b => simp [transform_value, docFree]
    | vdate t => simp [transform_value, docFree]
    | vobjectid b => simp [transform_value, docFree]
    | vregex p o => simp [transform_value, docFree]
    | vdbref c i => simp [transform_value, docFree]
  · simp [transform_list, docFreeList]
  · intro v rest hv hrest
    simp [transform_list, docFreeList, hv, hrest]
  · simp [transform_assoc, docFreeAssoc]
  · intro k v rest hv hrest
    simp [transform_assoc, docFreeAssoc, hv, hrest]

/-- C8 counterexample: `to_dict` on a document holding an array whose
element is a `DBRef` with a document id. The nested document sits inside
the `DBRef` value, which `transform_value` passes through unchanged like
any non-container value, so a `SON` survives in the output at depth —
the claim's "every nested Document (at any depth) becomes an unordered
map" fails. -/
theorem claim_C8_counterexample :
    SON.to_dict (SON.mk ["arr"]
        [("arr", .varray [.vdbref (.vstr "coll")
          (.vdoc (SON.mk ["x"] [("x", .vint 1)]))])]) =
      .vdict [("arr", .varray [.vdbref (.vstr "coll")
        (.vdoc (SON.mk ["x"] [("x", .vint 1)]))])] ∧
    sonFree (SON.to_dict (SON.mk ["arr"]
        [("arr", .varray [.vdbref (.vstr "coll")
          (.vdoc (SON.mk ["x"] [("x", .vint 1)]))])])) = false := by
  constructor
  · simp [SON.to_dict, transform_value, transform_assoc, transform_list]
  · simp [SON.to_dict, transform_value, transform_assoc, transform_list,
      sonFree, sonFreeAssoc, sonFreeList]

/-- C8 (amended): `to_dict` returns a plain-dict tree in which every
Document reachable through Documents, Arrays and plain maps becomes an
unordered map with the same keys and recursively converted values,
Arrays are converted element-wise, and every other value — scalars and
the composite `DBRef`/`Regex` wrappers, even when those wrap a
Document — passes through unchanged; key order is discarded at every
converted level (the converted maps depend only on the dict contents,
not the hidden order). -/
theorem claim_C8 :
    (∀ s : SON Value, s.to_dict = .vdict (transform_assoc s.data)) ∧
    (∀ (ks : List String) (data : List (String × Value)),
      transform_value (.vdoc (SON.mk ks data)) =
        .vdict (transform_assoc data)) ∧
    (∀ (d : List (String × Value)) k,
      dget? (transform_assoc d) k = (dget? d k).map transform_value) ∧
    (∀ l : List Value, transform_list l = l.map transform_value) ∧
    (∀ v, isScalar v = true → transform_value v = v) ∧
    (∀ v, docFree (transform_value v) = true) ∧
    (∀ s t : SON Value, (∀ k, dget? s.data k = dget? t.data k) →
      ∀ k, dget? (transform_assoc s.data) k =
        dget? (transform_assoc t.data) k) := by
  refine ⟨?_, ?_, ?_, transform_list_eq_map, transform_value_scalar,
    docFree_transform, ?_⟩
  · intro s
    simp [SON.to_dict, transform_value]
  · intro ks data
    simp [transform_value]
  · exact dget?_transform_assoc
  · intro s t h k
    rw [dget?_transform_assoc, dget?_transform_assoc, h k]

/-- C8 witness: the order-discarding and scalar clauses at concrete
values. -/
theorem claim_C8_witness :
    transform_value (.vint 3) = .vint 3 ∧
    (∀ k, dget? (transform_assoc (SON.mk ["a", "b"]
        [("a", Value.vint 1), ("b", .vint 2)] : SON Value).data) k =
      dget? (transform_assoc (SON.mk ["b", "a"]
        [("b", Value.vint 2), ("a", .vint 1)] : SON Value).data) k) :=
  ⟨claim_C8.2.2.2.2.1 (.vint 3) (by decide),
    claim_C8.2.2.2.2.2.2 (SON.mk ["a", "b"]
      [("a", Value.vint 1), ("b", .vint 2)])
      (SON.mk ["b", "a"] [("b", Value.vint 2), ("a", .vint 1)])
      (by
        intro k
        by_cases ha : "a" = k
        · subst ha
          simp [dget?]
        · by_cases hb : "b" = k <;> simp [dget?, ha, hb])⟩

/-! ### C3: the array rule -/

theorem pad_eq_append (l : List Value) (index : Int) :
    pad l index = l ++ List.replicate ((index + 1 - l.length).toNat) .vnull := by
  have hgen : ∀ (n : Nat) (l : List Value) (index : Int),
      (index + 1 - l.length).toNat = n →
      pad l index = l ++ List.replicate n .vnull := by
    intro n
    induction n with
    | zero =>
        intro l index hn
        rw [pad]
        rw [if_neg (by omega)]
        simp
    | succ m ih =>
        intro l index hn
        rw [pad]
        rw [if_pos (by omega)]
        rw [ih (l ++ [Value.vnull]) index (by simp; omega)]
        simp [List.replicate_succ]
  exact hgen _ l index rfl

theorem pad_length (l : List Value) (i : Nat) :
    (pad l (i : Int)).length = max l.length (i + 1) := by
  rw [pad_eq_append]
  simp only [List.length_append, List.length_replicate]
  omega

theorem pad_get? (l : List Value) (i : Nat) (j : Nat) :
    (pad l (i : Int)).get? j =
      if j < l.length then l.get? j
      else if j < max l.length (i + 1) then some .vnull else none := by
  rw [pad_eq_append]
  by_cases hj : j < l.length
  · rw [List.get?_append hj, if_pos hj]
  · rw [List.get?_append_right (by omega)]
    rw [if_neg hj]
    by_cases hj2 : j < max l.length (i + 1)
    · rw [if_pos hj2]
      rw [List.get?_eq_getElem?]
      rw [List.getElem?_replicate]
      rw [if_pos (by omega)]
    · rw [if_neg hj2]
      rw [List.get?_eq_getElem?]
      rw [List.getElem?_replicate]
      rw [if_neg (by omega)]

theorem pyListSet_nat_ok {A : Type} (l : List A) (i : Nat) (v : A)
    (h : i < l.length) : pyListSet l (i : Int) v = .ok (l.set i v) := by
  rw [pyListSet]
  rw [if_pos (by constructor <;> omega)]
  simp

/-- The dense-rebuild step of the array rule: pad to the index, then
assign. -/
def denseStep (arr : List Value) (q : Nat × Value) : List Value :=
  (pad arr (q.1 : Int)).set q.1 q.2

theorem denseStep_length (arr : List Value) (q : Nat × Value) :
    (denseStep arr q).length = max arr.length (q.1 + 1) := by
  rw [denseStep, List.length_set, pad_length]

theorem le_foldl_max (qs : List (Nat × Value)) (n : Nat) :
    n ≤ qs.foldl (fun m q => max m (q.1 + 1)) n := by
  induction qs generalizing n with
  | nil => exact Nat.le_refl n
  | cons q rest ih =>
      simp only [List.foldl_cons]
      exact Nat.le_trans (Nat.le_max_left n (q.1 + 1)) (ih _)

theorem foldl_denseStep_length (qs : List (Nat × Value)) (arr0 : List Value) :
    (qs.foldl denseStep arr0).length =
      qs.foldl (fun m q => max m (q.1 + 1)) arr0.length := by
  induction qs generalizing arr0 with
  | nil => rfl
  | cons q rest ih =>
      simp only [List.foldl_cons]
      rw [ih, denseStep_length]

theorem list_set_get?_self {A : Type} (l : List A) (i : Nat) (v : A)
    (h : i < l.length) : (l.set i v).get? i = some v := by
  induction l generalizing i with
  | nil => simp at h
  | cons a rest ih =>
      cases i with
      | zero => rfl
      | succ n =>
          have hn : n < rest.length := by
            simpa using h
          exact ih n hn

theorem list_set_get?_ne {A : Type} (l : List A) (i j : Nat) (v : A)
    (h : i ≠ j) : (l.set i v).get? j = l.get? j := by
  induction l generalizing i j with
  | nil => rfl
  | cons a rest ih =>
      cases i with
      | zero =>
          cases j with
          | zero => exact absurd rfl h
          | succ m => rfl
      | succ n =>
          cases j with
          | zero => rfl
          | succ m => exact ih n m (by omega)

theorem denseStep_get? (arr : List Value) (q : Nat × Value) (j : Nat) :
    (denseStep arr q).get? j =
      if j = q.1 then some q.2
      else if j < arr.length then arr.get? j
      else if j < max arr.length (q.1 + 1) then some .vnull else none := by
  by_cases hj : j = q.1
  · subst hj
    rw [if_pos rfl, denseStep]
    apply list_set_get?_self
    rw [pad_length]
    omega
  · rw [if_neg hj, denseStep]
    rw [list_set_get?_ne _ _ _ _ (fun hh => hj hh.symm)]
    exact pad_get? arr q.1 j

/-- The dense fold: the final value at a position is the last write to
it; positions below the final length never written hold `Null`. -/
theorem foldl_denseStep_get? (qs : List (Nat × Value)) (arr0 : List Value)
    (i : Nat) :
    (qs.foldl denseStep arr0).get? i =
      match lastWrite? qs i with
      | some v => some v
      | none =>
          if i < arr0.length then arr0.get? i
          else if i < qs.foldl (fun m q => max m (q.1 + 1)) arr0.length then
            some .vnull
          else none := by
  induction qs generalizing arr0 with
  | nil =>
      simp only [List.foldl_nil, lastWrite?]
      by_cases h : i < arr0.length
      · rw [if_pos h]
      · rw [if_neg h, if_neg h]
        exact List.get?_eq_none.mpr (by omega)
  | cons q rest ih =>
      simp only [List.foldl_cons, lastWrite?]
      rw [ih (denseStep arr0 q)]
      have hlen : (denseStep arr0 q).length = max arr0.length (q.1 + 1) :=
        denseStep_length arr0 q
      have hmax := le_foldl_max rest (max arr0.length (q.1 + 1))
      cases lastWrite? rest i with
      | some v => rfl
      | none =>
          rw [denseStep_get?, hlen]
          by_cases hq : q.1 = i
          · subst hq
            have h2 : q.1 < max arr0.length (q.1 + 1) := by omega
            simp [h2]
          · have hqf : (q.1 = i) = False := eq_false hq
            have hqf2 : (i = q.1) = False := eq_false (fun hh => hq hh.symm)
            simp only [hqf, hqf2, if_false]
            by_cases h0 : i < arr0.length
            · have h2 : i < max arr0.length (q.1 + 1) := by omega
              simp [h0, h2]
            · by_cases h1 : i < max arr0.length (q.1 + 1)
              · have h2 : i < List.foldl (fun m q => max m (q.1 + 1))
                    (max arr0.length (q.1 + 1)) rest := by omega
                simp [h0, h1, h2]
              · simp [h0, h1]

/-- When every item key parses as a nonnegative index, the array-rule
loop never fails and folds `denseStep` over the parsed pairs. -/
theorem foldlM_array_eq (items : List (String × Value)) (idx : String → Nat)
    (h : ∀ p ∈ items, parseIntStr p.1 = .ok ((idx p.1 : Nat) : Int)) :
    ∀ arr0 : List Value,
    (items.foldlM (fun arr p => do
        let index ← parseIntStr p.1
        pyListSet (pad arr index) index p.2) arr0 :
      Except PyErr (List Value)) =
      .ok ((items.map (fun p => (idx p.1, p.2))).foldl denseStep arr0) := by
  induction items with
  | nil => intro arr0; rfl
  | cons p rest ih =>
      intro arr0
      rw [List.foldlM_cons]
      rw [h p (List.mem_cons_self p rest)]
      simp only [bind, Except.bind]
      rw [pyListSet_nat_ok (pad arr0 ((idx p.1 : Nat) : Int)) (idx p.1) p.2
        (by rw [pad_length]; omega)]
      simp only [ih (fun q hq => h q (List.mem_cons_of_mem p hq))]
      simp only [List.map_cons, List.foldl_cons, denseStep]
      exact ih (fun q hq => h q (List.mem_cons_of_mem p hq)) _

/-- A written index is always below the dense length, whatever the
starting length. -/
theorem lastWrite?_lt_foldl_max (qs : List (Nat × Value)) (i : Nat)
    (v : Value) (h : lastWrite? qs i = some v) (n : Nat) :
    i < qs.foldl (fun m q => max m (q.1 + 1)) n := by
  induction qs generalizing n with
  | nil => cases h
  | cons q rest ih =>
      simp only [lastWrite?] at h
      simp only [List.foldl_cons]
      cases hrest : lastWrite? rest i with
      | some v' => exact ih (by rw [hrest]; rw [hrest] at h; exact h) _
      | none =>
          rw [hrest] at h
          by_cases hq : q.1 = i
          · subst hq
            exact Nat.lt_of_lt_of_le (by omega)
              (le_foldl_max rest (max n (q.1 + 1)))
          · rw [if_neg hq] at h
            cases h

/-- C3 (amended): when an array element's children decode under the doc
rule to pairs whose keys all parse as nonnegative base-10 integers, the
array rule produces a dense sequence — length one past the largest
index, each position holding the last value written to it and `Null` at
every position never written; and children keyed "0" and "2" with no
"1" yield `[value0, Null, value2]`. -/
theorem claim_C3 :
    (∀ (e : Elem) (doc : SON Value) (idx : String → Nat),
      make_doc e = .ok doc →
      (∀ p ∈ doc.items, parseIntStr p.1 = .ok ((idx p.1 : Nat) : Int)) →
      ∃ arr : List Value, make_array e = .ok arr ∧
        arr.length = denseLen (doc.items.map (fun p => (idx p.1, p.2))) ∧
        (∀ i, i < arr.length → arr.get? i =
          some ((lastWrite? (doc.items.map (fun p => (idx p.1, p.2)))
            i).getD .vnull)) ∧
        (∀ i, arr.length ≤ i → arr.get? i = none)) ∧
    make_elem (.mk "array" [("name", "a")] none
        [.mk "int" [("name", "0")] (some "10") [],
         .mk "int" [("name", "2")] (some "12") []]) =
      .ok (.varray [.vint 10, .vnull, .vint 12]) := by
  constructor
  · intro e doc idx hdoc hidx
    refine ⟨(doc.items.map (fun p => (idx p.1, p.2))).foldl denseStep [],
      ?_, ?_, ?_, ?_⟩
    · rw [make_array]
      rw [hdoc]
      simp only [bind, Except.bind]
      exact foldlM_array_eq doc.items idx hidx []
    · rw [foldl_denseStep_length]
      rfl
    · intro i hi
      rw [foldl_denseStep_get?]
      rw [foldl_denseStep_length] at hi
      cases hlw : lastWrite? (doc.items.map (fun p => (idx p.1, p.2))) i with
      | some v => rfl
      | none =>
          simp only [List.length_nil, Nat.not_lt_zero, if_false]
          rw [if_pos (by simpa using hi)]
          rfl
    · intro i hi
      rw [foldl_denseStep_get?]
      rw [foldl_denseStep_length] at hi
      cases hlw : lastWrite? (doc.items.map (fun p => (idx p.1, p.2))) i with
      | some v =>
          exfalso
          have hbound := lastWrite?_lt_foldl_max _ i v hlw 0
          simp only [List.length_nil] at hi
          omega
      | none =>
          have hz : ¬ i < ([] : List Value).length := by simp
          rw [if_neg hz, if_neg (by simpa using Nat.not_lt.mpr hi)]
  · simp [make_elem, runRule, make_array, make_doc, make_doc_children,
      tableLookup, TypeDispatchTable, dget?, Elem.tag, Elem.attrib,
      Elem.text, Elem.children, make_int, parseIntText,
      show parseIntStr "10" = .ok 10 from by decide,
      show parseIntStr "12" = .ok 12 from by decide,
      show parseIntStr "0" = .ok 0 from by decide,
      show parseIntStr "2" = .ok 2 from by decide,
      show pad [] (0 : Int) = [Value.vnull] from by
        rw [pad_eq_append]; rfl,
      show pyListSet [Value.vnull] (0 : Int) (Value.vint 10) =
          .ok [Value.vint 10] from by rfl,
      show pad [Value.vint 10] (2 : Int) =
          [Value.vint 10, Value.vnull, Value.vnull] from by
        rw [pad_eq_append]; rfl,
      show pyListSet [Value.vint 10, Value.vnull, Value.vnull] (2 : Int)
          (Value.vint 12) = .ok [Value.vint 10, Value.vnull, Value.vint 12]
        from by rfl,
      SON.setitem, SON.containsKey, SON.empty, dset, SON.items,
      bind, Except.bind, pure, Except.pure, Except.map]

/-- C3 counterexample: `"-1"` is a base-10 integer string, so a single
child named `"-1"` decodes under the doc rule to an integer-keyed pair;
but `int("-1")` is negative, the `Null` padding loop does nothing, and
`array[-1] = value` on the still-empty accumulator raises `IndexError` —
the decode fails instead of producing a dense sequence with the value
at the parsed index. -/
theorem claim_C3_counterexample :
    parseIntStr "-1" = .ok (-1) ∧
    make_elem (.mk "array" [("name", "a")] none
        [.mk "null" [("name", "-1")] none []]) = .error .indexError := by
  constructor
  · decide
  · simp [make_elem, runRule, make_array, make_doc, make_doc_children,
      tableLookup, TypeDispatchTable, dget?, Elem.tag, Elem.attrib,
      Elem.text, Elem.children, make_null,
      show parseIntStr "-1" = .ok (-1) from by decide,
      show pad [] (-1 : Int) = [] from by rw [pad_eq_append]; rfl,
      show pyListSet ([] : List Value) (-1 : Int) Value.vnull =
          .error .indexError from by rfl,
      SON.setitem, SON.containsKey, SON.empty, dset, SON.items,
      bind, Except.bind, pure, Except.pure, Except.map]

/-- C3 witness: the dense-sequence theorem applied to the concrete
array whose children are named "0" and "2". -/
theorem claim_C3_witness :
    make_doc (.mk "array" [("name", "a")] none
        [.mk "int" [("name", "0")] (some "10") [],
         .mk "int" [("name", "2")] (some "12") []]) =
      .ok (SON.mk ["0", "2"] [("0", .vint 10), ("2", .vint 12)]) ∧
    (∀ p ∈ (SON.mk ["0", "2"]
        [("0", Value.vint 10), ("2", .vint 12)]).items,
      parseIntStr p.1 =
        .ok ((((fun s => if s = "2" then 2 else 0) p.1 : Nat)) : Int)) ∧
    ∃ arr : List Value,
      make_array (.mk "array" [("name", "a")] none
        [.mk "int" [("name", "0")] (some "10") [],
         .mk "int" [("name", "2")] (some "12") []]) = .ok arr ∧
      arr.length = denseLen ((SON.mk ["0", "2"]
        [("0", Value.vint 10), ("2", .vint 12)]).items.map
          (fun p => ((fun s => if s = "2" then 2 else 0) p.1, p.2))) ∧
      (∀ i, i < arr.length → arr.get? i =
        some ((lastWrite? ((SON.mk ["0", "2"]
          [("0", Value.vint 10), ("2", .vint 12)]).items.map
            (fun p => ((fun s => if s = "2" then 2 else 0) p.1, p.2)))
          i).getD .vnull)) ∧
      (∀ i, arr.length ≤ i → arr.get? i = none) := by
  have hdoc : make_doc (.mk "array" [("name", "a")] none
      [.mk "int" [("name", "0")] (some "10") [],
       .mk "int" [("name", "2")] (some "12") []]) =
      .ok (SON.mk ["0", "2"] [("0", .vint 10), ("2", .vint 12)]) := by
    simp [make_doc, make_doc_children, make_elem, runRule, tableLookup,
      TypeDispatchTable, dget?, Elem.tag, Elem.attrib, Elem.text,
      Elem.children, make_int, parseIntText,
      show parseIntStr "10" = .ok 10 from by decide,
      show parseIntStr "12" = .ok 12 from by decide,
      SON.setitem, SON.containsKey, SON.empty, dset,
      bind, Except.bind, pure, Except.pure, Except.map]
  have hidx : ∀ p ∈ (SON.mk ["0", "2"]
      [("0", Value.vint 10), ("2", .vint 12)]).items,
      parseIntStr p.1 =
        .ok ((((fun s => if s = "2" then 2 else 0) p.1 : Nat)) : Int) := by
    decide
  exact ⟨hdoc, hidx, claim_C3.1 _ _ (fun s => if s = "2" then 2 else 0)
    hdoc hidx⟩

/-! ### C4 and C10: tag dispatch errors -/

/-- C4 counterexample: the `ref` rule indexes only the first two
children, so a third child with the unknown tag `"foo"` is never
visited — the tree contains an element whose tag is absent from the
dispatch table, yet the decode succeeds and returns a document instead
of failing with `UnsupportedTag`. -/
theorem claim_C4_counterexample :
    tableLookup "foo" = none ∧
    elemHasTag "foo" (.mk "mongo" [] none [.mk "meta" [] none [],
      .mk "doc" [] none [.mk "ref" [("name", "r")] none
        [.mk "string" [("name", "a")] (some "x") [],
         .mk "string" [("name", "b")] (some "y") [],
         .mk "foo" [] none []]]]) = true ∧
    from_xml_tree (.mk "mongo" [] none [.mk "meta" [] none [],
      .mk "doc" [] none [.mk "ref" [("name", "r")] none
        [.mk "string" [("name", "a")] (some "x") [],
         .mk "string" [("name", "b")] (some "y") [],
         .mk "foo" [] none []]]]) =
      .ok (SON.mk ["r"] [("r", .vdbref (.vstr "x") (.vstr "y"))]) := by
  refine ⟨by decide, ?_, ?_⟩
  · simp [elemHasTag, elemsHaveTag]
  · simp [from_xml_tree, pyIndex, List.get?, make_doc, make_doc_children,
      make_elem, runRule, tableLookup, TypeDispatchTable, dget?, Elem.tag,
      Elem.attrib, Elem.text, Elem.children, make_string,
      SON.setitem, SON.containsKey, SON.empty, dset,
      bind, Except.bind, pure, Except.pure, Except.map]

/-- C4 (amended): every element the decoder actually dispatches on whose
tag is absent from the dispatch table fails immediately with
`UnsupportedTag` naming that tag; the failure propagates through the
decode — as with the spec's element with tag `"foo"` inside a `doc`,
where the whole decode returns `UnsupportedTag("cannot parse tag: foo")`
and no partial document. An unsupported element that decoding never
visits (for example a third child of a `ref`) does not cause failure
(see the counterexample). -/
theorem claim_C4 :
    (∀ e : Elem, tableLookup e.tag = none →
      make_elem e =
        .error (.unsupportedTag ("cannot parse tag: " ++ e.tag))) ∧
    from_xml_tree (.mk "mongo" [] none [.mk "meta" [] none [],
        .mk "doc" [] none [.mk "foo" [] none []]]) =
      .error (.unsupportedTag "cannot parse tag: foo") := by
  constructor
  · intro e h
    rw [make_elem_runRule, h]
  · simp [from_xml_tree, pyIndex, List.get?, make_doc, make_doc_children,
      make_elem, runRule, tableLookup, TypeDispatchTable, dget?, Elem.tag,
      Elem.attrib, Elem.text, Elem.children,
      bind, Except.bind, pure, Except.pure, Except.map]

/-- C4 witness: the dispatch failure at a concrete `foo` element. -/
theorem claim_C4_witness :
    tableLookup (Elem.mk "foo" [] none []).tag = none ∧
    make_elem (.mk "foo" [] none []) =
      .error (.unsupportedTag "cannot parse tag: foo") :=
  ⟨by decide, by simpa using claim_C4.1 (.mk "foo" [] none []) (by decide)⟩

/-- C10: the `except KeyError` around the dispatch-table call converts
any `KeyError` raised while a recognized handler runs into
`UnsupportedTag` naming the current element's tag; in particular a
nested `doc` element with a child lacking a `name` attribute makes the
decode fail with `UnsupportedTag("cannot parse tag: doc")` — the
enclosing supported tag — rather than a distinct missing-attribute
error. -/
theorem claim_C10 :
    (∀ (e : Elem) (r : Rule) (k : String), tableLookup e.tag = some r →
      runRule r e = .error (.keyError k) →
      make_elem e =
        .error (.unsupportedTag ("cannot parse tag: " ++ e.tag))) ∧
    from_xml_tree (.mk "mongo" [] none [.mk "meta" [] none [],
        .mk "doc" [] none [.mk "doc" [("name", "x")] none
          [.mk "null" [] none []]]]) =
      .error (.unsupportedTag "cannot parse tag: doc") := by
  constructor
  · intro e r k h1 h2
    rw [make_elem_runRule, h1]
    simp only [h2]
  · simp [from_xml_tree, pyIndex, List.get?, make_doc, make_doc_children,
      make_elem, runRule, tableLookup, TypeDispatchTable, dget?, Elem.tag,
      Elem.attrib, Elem.text, Elem.children, make_null,
      SON.setitem, SON.containsKey, SON.empty, dset,
      bind, Except.bind, pure, Except.pure, Except.map]

/-- C10 witness: the conversion at a concrete nested `doc` element whose
child has no `name` attribute. -/
theorem claim_C10_witness :
    tableLookup (Elem.mk "doc" [("name", "x")] none
      [.mk "null" [] none []]).tag = some .rdoc ∧
    runRule .rdoc (.mk "doc" [("name", "x")] none
      [.mk "null" [] none []]) = .error (.keyError "name") ∧
    make_elem (.mk "doc" [("name", "x")] none [.mk "null" [] none []]) =
      .error (.unsupportedTag "cannot parse tag: doc") := by
  have hrun : runRule .rdoc (.mk "doc" [("name", "x")] none
      [.mk "null" [] none []]) = .error (.keyError "name") := by
    simp [runRule, make_doc, make_doc_children, make_elem, tableLookup,
      TypeDispatchTable, dget?, Elem.tag, Elem.attrib, Elem.text,
      Elem.children, make_null, SON.setitem, SON.containsKey, SON.empty,
      dset, bind, Except.bind, pure, Except.pure, Except.map]
  exact ⟨by decide, hrun,
    by simpa using claim_C10.1 (.mk "doc" [("name", "x")] none
      [.mk "null" [] none []]) .rdoc "name" (by decide) hrun⟩

end Pymongo
